import Mathlib

/-!
# Verification of the functional-control-flow-to-CFG lowering pass

Shallow embedding of
`tensorflow/compiler/mlir/tensorflow/transforms/functional_control_flow_to_cfg.cc`:
the pass that lowers functional `tf.If` / `tf.While` operations into an
unstructured control-flow graph of basic blocks, branches and block
arguments.

Modelling conventions:
* MLIR `Value`s are natural-number ids; a `LowerState` carries the
  id-to-type table (values are created only through `freshVal`, mirroring
  `OpBuilder` op creation), the next fresh block id, and the list of
  emitted diagnostics (`emitError`).
* Function symbol names are modelled as atoms (`Nat`).
* C++ `assert` failures and null-pointer dereferences are modelled as a
  distinct `crash` outcome (`Err`), separate from the boolean
  failure-return (`LowerResult.fail`) that `LowerIfOp` / `LowerWhileOp`
  report to the driver.
* The driver's loop over the growing block list is run on explicit fuel;
  a separate theorem shows the stated fuel budget is never exhausted,
  which is the termination argument of the source.
-/

set_option maxHeartbeats 1600000

namespace TFCFG

/-- Element kind of a tensor element type: `isInteger(width)` integers,
floats, or strings. -/
inductive ElemKind where
  | int (width : Nat)
  | float (width : Nat)
  | str
deriving DecidableEq, Repr

/-- An MLIR type as this pass sees it: a `TensorType` with an optional
shape (`none` = unranked, `some l` = ranked with shape `l`, so rank-0 is
`some []`) and an element kind, or a non-tensor scalar type such as the
native `i1` produced by `ExtractElementOp`. -/
inductive MType where
  | tensor (shape : Option (List Nat)) (elem : ElemKind)
  | scalar (elem : ElemKind)
deriving DecidableEq, Repr

/-- A typed SSA value declaration: a block argument or an operation
result. -/
structure Arg where
  id : Nat
  ty : MType
deriving DecidableEq, Repr

/-- Operation kinds relevant to the pass.  `br` and `condBr` carry their
successor operands in the kind so that a `condBr` can hold a null
condition (the While-lowering bug path); all other operand lists live in
`Op.operands`. -/
inductive OpKind where
  | ifOp (thenName elseName : Nat)
  | whileOp (condName bodyName : Nat)
  | call (callee : Nat)
  | tensorCast
  | extractElement
  | br (dest : Nat) (args : List Nat)
  | condBr (cond : Option Nat) (trueDest : Nat) (trueArgs : List Nat)
      (falseDest : Nat) (falseArgs : List Nat)
  | ret
  | other (tag : Nat)
deriving DecidableEq, Repr

/-- An operation: kind, operand value ids, typed results, and a source
location used for diagnostics. -/
structure Op where
  kind : OpKind
  operands : List Nat
  results : List Arg
  loc : Nat
deriving DecidableEq, Repr

/-- A basic block: a stable block id (branch targets refer to it), typed
block arguments, and an ordered operation list. -/
structure Block where
  bid : Nat
  args : List Arg
  ops : List Op
deriving DecidableEq, Repr

/-- The function being transformed: its ordered block list. -/
structure Func where
  blocks : List Block
deriving DecidableEq, Repr

/-- The interface signature of a callee function resolved from the
module: parameter types and result types. -/
structure FuncSig where
  inputs : List MType
  results : List MType
deriving DecidableEq, Repr

/-- The module's name-to-function table (`getNamedFunction`). -/
abbrev ModuleTable := List (Nat × FuncSig)

/-- Builder state: fresh value/block counters, the value-id-to-type
table (newest first), and emitted diagnostics (newest first). -/
structure LowerState where
  nextVal : Nat
  nextBid : Nat
  types : List (Nat × MType)
  diags : List (Nat × String)
deriving DecidableEq, Repr

/-- `Value::getType()`. -/
def typeOf (st : LowerState) (v : Nat) : Option MType :=
  (st.types.find? (fun p => p.1 == v)).map (fun p => p.2)

/-- `emitError(loc, msg)`. -/
def addDiag (loc : Nat) (msg : String) (st : LowerState) : LowerState :=
  { st with diags := (loc, msg) :: st.diags }

/-- Allocate a fresh SSA value of the given type. -/
def freshVal (ty : MType) (st : LowerState) : Nat × LowerState :=
  (st.nextVal,
   { st with nextVal := st.nextVal + 1, types := (st.nextVal, ty) :: st.types })

/-- Allocate one fresh value per type (block-argument or call-result
lists). -/
def freshArgs : List MType → LowerState → List Arg × LowerState
  | [], st => ([], st)
  | t :: ts, st =>
    let p := freshVal t st
    let q := freshArgs ts p.2
    (⟨p.1, t⟩ :: q.1, q.2)

/-- Allocate a fresh block id. -/
def freshBid (st : LowerState) : Nat × LowerState :=
  (st.nextBid, { st with nextBid := st.nextBid + 1 })

/-- `module->getNamedFunction(name)`: `none` models the null pointer. -/
def findFn (m : ModuleTable) (name : Nat) : Option FuncSig :=
  (m.find? (fun p => p.1 == name)).map (fun p => p.2)

/-- Apply a value substitution to the successor operands stored in a
terminator kind. -/
def substKind (σ : Nat → Nat) : OpKind → OpKind
  | .br d args => .br d (args.map σ)
  | .condBr c td ta fd fa => .condBr (c.map σ) td (ta.map σ) fd (fa.map σ)
  | k => k

/-- Apply a value substitution to all uses in one operation. -/
def substOp (σ : Nat → Nat) (o : Op) : Op :=
  { o with operands := o.operands.map σ, kind := substKind σ o.kind }

/-- Apply a value substitution to all uses in one block (block-argument
declarations are definitions, not uses). -/
def substBlock (σ : Nat → Nat) (b : Block) : Block :=
  { b with ops := b.ops.map (substOp σ) }

/-- Apply a value substitution to all uses in the function. -/
def substFunc (σ : Nat → Nat) (f : Func) : Func :=
  ⟨f.blocks.map (substBlock σ)⟩

/-- The single-point substitution `r ↦ a`. -/
def pointSubst (r a : Nat) : Nat → Nat :=
  fun v => if v = r then a else v

/-- `Value::replaceAllUsesWith`: rewrite every use of `r` to `a`. -/
def replaceUses (f : Func) (r a : Nat) : Func :=
  substFunc (pointSubst r a) f

/-- The simultaneous substitution induced by an association list of
(old id, new id) pairs. -/
def lookupSubst (pairs : List (Nat × Nat)) : Nat → Nat :=
  fun v =>
    match pairs.find? (fun p => p.1 == v) with
    | some p => p.2
    | none => v

/-- Crash outcomes: C++ undefined behaviour (null `Function*`
dereference, `cast<TensorType>` on a non-tensor, out-of-range
operand/result access) and `assert` failures. -/
inductive Err where
  | nullFunctionDeref
  | castNotTensor
  | indexOutOfRange
  | assertResultCount
  | assertCondResults
  | wrongOpKind
deriving DecidableEq, Repr

/-- The cast-insertion pattern shared by `CallFn` and
`PrepareValsForJump` (the spec's ValueAdapter): return the value
unchanged when its type already matches, otherwise create one
`TensorCastOp` to the expected type and return its result. -/
def adaptValue (loc : Nat) (v : Nat) (expected : MType) (st : LowerState) :
    Nat × List Op × LowerState :=
  if typeOf st v = some expected then (v, [], st)
  else
    let p := freshVal expected st
    (p.1, [⟨.tensorCast, [v], [⟨p.1, expected⟩], loc⟩], p.2)

/-- The indexed argument-adaptation loop of `CallFn` /
`PrepareValsForJump`: fetch the `i`-th value from the accessor (an
out-of-range access is a crash) and adapt it to the `i`-th expected
type. Returns the adapted values and the cast operations in program
order. -/
def adaptArgsGo (loc : Nat) (get : Nat → Option Nat) :
    Nat → List MType → LowerState → Except Err (List Nat × List Op × LowerState)
  | _, [], st => .ok ([], [], st)
  | i, t :: ts, st =>
    match get i with
    | none => .error .indexOutOfRange
    | some v =>
      let p := adaptValue loc v t st
      match adaptArgsGo loc get (i + 1) ts p.2.2 with
      | .error e => .error e
      | .ok (vs, ops, st') => .ok (p.1 :: vs, p.2.1 ++ ops, st')

/-- Adapt the accessor's values to a full expected-type list, starting
at index 0. -/
def adaptArgs (loc : Nat) (get : Nat → Option Nat) (expected : List MType)
    (st : LowerState) : Except Err (List Nat × List Op × LowerState) :=
  adaptArgsGo loc get 0 expected st

/-- `CallFn`: call `callee` with arguments provided by the accessor,
casting each to the callee's parameter type when needed.  A null callee
(`module` lookup miss) is dereferenced here (`fn->getType()`), which is
the modelled crash.  Returns the created ops (casts then the call) and
the call's typed results. -/
def CallFn (loc : Nat) (get : Nat → Option Nat) (fn : Option FuncSig)
    (callee : Nat) (st : LowerState) :
    Except Err (List Op × List Arg × LowerState) :=
  match fn with
  | none => .error .nullFunctionDeref
  | some sig =>
    match adaptArgs loc get sig.inputs st with
    | .error e => .error e
    | .ok (vals, casts, st₁) =>
      let q := freshArgs sig.results st₁
      .ok (casts ++ [⟨.call callee, vals, q.1, loc⟩], q.1, q.2)

/-- `PrepareValsForJump`: adapt the accessor's values to the target
block's argument types, returning the jump operands and the created
casts. -/
def PrepareValsForJump (loc : Nat) (get : Nat → Option Nat)
    (blockArgs : List Arg) (st : LowerState) :
    Except Err (List Nat × List Op × LowerState) :=
  adaptArgs loc get (blockArgs.map (fun a => a.ty)) st

/-- `JumpToBlock`: `PrepareValsForJump` followed by an unconditional
branch to `dest`. -/
def JumpToBlock (loc : Nat) (get : Nat → Option Nat) (blockArgs : List Arg)
    (dest : Nat) (st : LowerState) : Except Err (List Op × LowerState) :=
  match PrepareValsForJump loc get blockArgs st with
  | .error e => .error e
  | .ok (vals, casts, st₁) =>
    .ok (casts ++ [⟨.br dest vals, [], [], loc⟩], st₁)

/-- Rewrite block `bi` of `f` in place (no-op when out of range). -/
def modifyBlock (f : Func) (bi : Nat) (g : Block → Block) : Func :=
  match f.blocks[bi]? with
  | none => f
  | some b => ⟨f.blocks.set bi (g b)⟩

/-- Insert an op at position `pos` of block `bi`. -/
def insertOpAt (f : Func) (bi pos : Nat) (o : Op) : Func :=
  modifyBlock f bi (fun b => { b with ops := b.ops.take pos ++ o :: b.ops.drop pos })

/-- Erase the op at position `pos` of block `bi`. -/
def eraseOpAt (f : Func) (bi pos : Nat) : Func :=
  modifyBlock f bi (fun b => { b with ops := b.ops.take pos ++ b.ops.drop (pos + 1) })

/-- The loop body of `ReplaceOpResultWithBlockArgs`: for each
(result, argument) pair, rewrite all uses of the result to the argument,
inserting first a cast of the argument back to the result's type when
the two types differ.  Casts accumulate at the front of block `bi`
(the builder's insertion point sits before that block's first op, which
is the op being lowered at both call sites); `cnt` tracks how many casts
precede the op so far. -/
def replaceGo (loc bi : Nat) : List (Arg × Arg) → Nat → Func → LowerState →
    Func × LowerState × Nat
  | [], cnt, f, st => (f, st, cnt)
  | (res, arg) :: rest, cnt, f, st =>
    if arg.ty = res.ty then
      replaceGo loc bi rest cnt (replaceUses f res.id arg.id) st
    else
      let p := freshVal res.ty st
      let f₁ := insertOpAt f bi cnt ⟨.tensorCast, [arg.id], [⟨p.1, res.ty⟩], loc⟩
      replaceGo loc bi rest (cnt + 1) (replaceUses f₁ res.id p.1) p.2

/-- `ReplaceOpResultWithBlockArgs`: assert that the op's result count
equals block `bi`'s argument count (a mismatch is the modelled assert
failure), then rewrite each result's uses to the corresponding block
argument.  Returns the rewritten function and the number of casts
inserted before the op in block `bi`. -/
def ReplaceOpResultWithBlockArgs (loc : Nat) (op : Op) (bi : Nat) (f : Func)
    (st : LowerState) : Except Err (Func × LowerState × Nat) :=
  match f.blocks[bi]? with
  | none => .error .indexOutOfRange
  | some blk =>
    if op.results.length = blk.args.length then
      .ok (replaceGo loc bi (op.results.zip blk.args) 0 f st)
    else .error .assertResultCount

/-- Result of `LowerCondition`: on success the created
`ExtractElementOp` and its result value; `unsupported` models
`emitError(...), nullptr` (the diagnostic is already in the returned
state); `crash` models `cast<TensorType>` failing on a non-tensor
value. -/
inductive CondResult where
  | ok (extract : Op) (value : Nat) (st : LowerState)
  | unsupported (st : LowerState)
  | crash (e : Err)
deriving DecidableEq, Repr

/-- `LowerCondition`: only a ranked rank-0 tensor of `i1` is accepted;
it is unwrapped by an `ExtractElementOp` whose result is returned.  Any
other tensor shape or element kind emits the diagnostic at `loc` and
returns null. -/
def LowerCondition (loc : Nat) (v : Nat) (st : LowerState) : CondResult :=
  match typeOf st v with
  | some (.tensor shape e) =>
    if shape = some ([] : List Nat) ∧ e = .int 1 then
      let p := freshVal (.scalar e) st
      .ok ⟨.extractElement, [v], [⟨p.1, .scalar e⟩], loc⟩ p.1 p.2
    else .unsupported (addDiag loc "only supports zero-D bool tensors now" st)
  | _ => .crash .castNotTensor

/-- How `LowerWhileOp` consumes `LowerCondition`: the null result of a
failed lowering is NOT checked (unlike `LowerIfOp`), so the unsupported
case flows on as a null condition value with no ops created. -/
def LowerConditionWhile (loc : Nat) (v : Nat) (st : LowerState) :
    Except Err (Option Nat × List Op × LowerState) :=
  match LowerCondition loc v st with
  | .ok ex x st₁ => .ok (some x, [ex], st₁)
  | .unsupported st₁ => .ok (none, [], st₁)
  | .crash e => .error e

/-- Outcome of `LowerIfOp` / `LowerWhileOp`: `ok` is the C++ `false`
(success) return carrying the rewritten function, `fail` the C++ `true`
(failure) return (IR as left at that point), `crash` undefined
behaviour / assert failure. -/
inductive LowerResult where
  | ok (f : Func) (st : LowerState)
  | fail (f : Func) (st : LowerState)
  | crash (e : Err)
deriving DecidableEq, Repr

/-- `LowerIfOp` acting on the op at position `k` of block `b`:
lower the condition (aborting, with the IR untouched, when it is not a
rank-0 `i1` tensor), resolve the callees, split the block at the op into
`orig`/`merge`, give the merge block one argument per result and rewrite
result uses to them, build the then/else call blocks, terminate `orig`
with the conditional branch (no successor operands), and erase the op.
Final block layout: `orig, then, else, merge` at indices `b..b+3`. -/
def LowerIfOp (f : Func) (b k : Nat) (m : ModuleTable) (st : LowerState) :
    LowerResult :=
  match f.blocks[b]? with
  | none => .crash .indexOutOfRange
  | some blk =>
  match blk.ops[k]? with
  | none => .crash .indexOutOfRange
  | some op =>
  match op.kind with
  | .ifOp thenName elseName =>
    (match op.operands[0]? with
    | none => .crash .indexOutOfRange
    | some cond =>
    match LowerCondition op.loc cond st with
    | .crash e => .crash e
    | .unsupported st₁ => .fail f st₁
    | .ok extractOp condVal st₁ =>
      let thenFn := findFn m thenName
      let elseFn := findFn m elseName
      let pm := freshBid st₁
      let pa := freshArgs (op.results.map (fun r => r.ty)) pm.2
      let origBlk : Block := ⟨blk.bid, blk.args, blk.ops.take k ++ [extractOp]⟩
      let mergeBlk : Block := ⟨pm.1, pa.1, op :: blk.ops.drop (k + 1)⟩
      let f₁ : Func :=
        ⟨f.blocks.take b ++ origBlk :: mergeBlk :: f.blocks.drop (b + 1)⟩
      match ReplaceOpResultWithBlockArgs op.loc op (b + 1) f₁ pa.2 with
      | .error e => .crash e
      | .ok (f₂, st₄, cnt) =>
      match f₂.blocks[b + 1]? with
      | none => .crash .indexOutOfRange
      | some mergeBlk₂ =>
      match mergeBlk₂.ops[cnt]? with
      | none => .crash .indexOutOfRange
      | some op₂ =>
        let pt := freshBid st₄
        match CallFn op.loc (fun i => op₂.operands[i + 1]?) thenFn thenName pt.2 with
        | .error e => .crash e
        | .ok (thenCall, thenRes, st₆) =>
        match JumpToBlock op.loc (fun i => (thenRes[i]?).map (fun a => a.id))
            mergeBlk₂.args pm.1 st₆ with
        | .error e => .crash e
        | .ok (thenJump, st₇) =>
          let thenBlk : Block := ⟨pt.1, [], thenCall ++ thenJump⟩
          let pe := freshBid st₇
          match CallFn op.loc (fun i => op₂.operands[i + 1]?) elseFn elseName pe.2 with
          | .error e => .crash e
          | .ok (elseCall, elseRes, st₉) =>
          match JumpToBlock op.loc (fun i => (elseRes[i]?).map (fun a => a.id))
              mergeBlk₂.args pm.1 st₉ with
          | .error e => .crash e
          | .ok (elseJump, st₁₀) =>
            let elseBlk : Block := ⟨pe.1, [], elseCall ++ elseJump⟩
            match f₂.blocks[b]? with
            | none => .crash .indexOutOfRange
            | some origBlk₂ =>
              let origBlk₃ : Block :=
                { origBlk₂ with
                  ops := origBlk₂.ops ++
                    [⟨.condBr (some condVal) pt.1 [] pe.1 [], [], [], op.loc⟩] }
              let mergeBlk₃ : Block :=
                { mergeBlk₂ with
                  ops := mergeBlk₂.ops.take cnt ++ mergeBlk₂.ops.drop (cnt + 1) }
              .ok ⟨f₂.blocks.take b ++
                    origBlk₃ :: thenBlk :: elseBlk :: mergeBlk₃ ::
                      f₂.blocks.drop (b + 2)⟩ st₁₀)
  | _ => .crash .wrongOpKind

/-- `LowerWhileOp` acting on the op at position `k` of block `b`:
resolve the callees (a missing one is dereferenced while building block
arguments — the modelled crash), split the block into `head`/`tail`,
create `cond`/`body` blocks between them, mirror the cond-callee's
parameter types on the cond block and the body-callee's on the body and
tail blocks, jump from head to cond, call the cond callee and lower its
single result (ignoring a null result — the unchecked failure), emit the
conditional branch to body/tail with the same adapted operands, call the
body callee and jump back to cond, rewrite result uses to tail
arguments, and erase the op.  Final layout: `head, cond, body, tail` at
indices `b..b+3`. -/
def LowerWhileOp (f : Func) (b k : Nat) (m : ModuleTable) (st : LowerState) :
    LowerResult :=
  match f.blocks[b]? with
  | none => .crash .indexOutOfRange
  | some blk =>
  match blk.ops[k]? with
  | none => .crash .indexOutOfRange
  | some op =>
  match op.kind with
  | .whileOp condName bodyName =>
    (let condFn := findFn m condName
    let bodyFn := findFn m bodyName
    let ptl := freshBid st
    let pcb := freshBid ptl.2
    let pbb := freshBid pcb.2
    match condFn with
    | none => .crash .nullFunctionDeref
    | some condSig =>
    match bodyFn with
    | none => .crash .nullFunctionDeref
    | some bodySig =>
      let pca := freshArgs condSig.inputs pbb.2
      let pba := freshArgs bodySig.inputs pca.2
      let pta := freshArgs bodySig.inputs pba.2
      match JumpToBlock op.loc (fun i => op.operands[i]?) pca.1 pcb.1 pta.2 with
      | .error e => .crash e
      | .ok (headJump, st₇) =>
        let headBlk : Block := ⟨blk.bid, blk.args, blk.ops.take k ++ headJump⟩
        match CallFn op.loc (fun i => (pca.1[i]?).map (fun a => a.id))
            (some condSig) condName st₇ with
        | .error e => .crash e
        | .ok (condCall, condRes, st₈) =>
        if condRes.length = 1 then
          match condRes[0]? with
          | none => .crash .indexOutOfRange
          | some r0 =>
          match LowerConditionWhile op.loc r0.id st₈ with
          | .error e => .crash e
          | .ok (optCond, extractOps, st₉) =>
          match PrepareValsForJump op.loc (fun i => (pca.1[i]?).map (fun a => a.id))
              pba.1 st₉ with
          | .error e => .crash e
          | .ok (brVals, brCasts, st₁₀) =>
            let condBlk : Block := ⟨pcb.1, pca.1,
              condCall ++ extractOps ++ brCasts ++
                [⟨.condBr optCond pbb.1 brVals ptl.1 brVals, [], [], op.loc⟩]⟩
            match CallFn op.loc (fun i => (pba.1[i]?).map (fun a => a.id))
                (some bodySig) bodyName st₁₀ with
            | .error e => .crash e
            | .ok (bodyCall, bodyRes, st₁₁) =>
            match JumpToBlock op.loc (fun i => (bodyRes[i]?).map (fun a => a.id))
                pca.1 pcb.1 st₁₁ with
            | .error e => .crash e
            | .ok (bodyJump, st₁₂) =>
              let bodyBlk : Block := ⟨pbb.1, pba.1, bodyCall ++ bodyJump⟩
              let tailBlk : Block := ⟨ptl.1, pta.1, op :: blk.ops.drop (k + 1)⟩
              let f₁ : Func :=
                ⟨f.blocks.take b ++
                  headBlk :: condBlk :: bodyBlk :: tailBlk ::
                    f.blocks.drop (b + 1)⟩
              match ReplaceOpResultWithBlockArgs op.loc op (b + 3) f₁ st₁₂ with
              | .error e => .crash e
              | .ok (f₂, st₁₃, cnt) => .ok (eraseOpAt f₂ (b + 3) cnt) st₁₃
        else .crash .assertCondResults)
  | _ => .crash .wrongOpKind

/-- Whether an op is a structured control-flow op eligible for
lowering. -/
def isStructured (o : Op) : Bool :=
  match o.kind with
  | .ifOp _ _ => true
  | .whileOp _ _ => true
  | _ => false

/-- Structured ops in one block. -/
def blockStructured (b : Block) : Nat :=
  b.ops.countP isStructured

/-- Structured ops in the whole function. -/
def structuredCount (f : Func) : Nat :=
  (f.blocks.map blockStructured).sum

/-- The driver's inner scan: index of the first structured op of a
block. -/
def findStructured : List Op → Option Nat
  | [] => none
  | o :: rest =>
    if isStructured o then some 0 else (findStructured rest).map (fun n => n + 1)

/-- Driver outcome.  `outOfFuel` is an artifact of running the loop on
fuel; the termination theorem shows the budget used by `runOnFunction`
never reaches it. -/
inductive DriverResult where
  | done (f : Func) (st : LowerState)
  | failed (f : Func) (st : LowerState)
  | crashed (e : Err)
  | outOfFuel
deriving DecidableEq, Repr

/-- The driver loop of `runOnFunction`: visit block `i`; lower the first
structured op found there (the source then `break`s out of the op scan
and the block iterator moves on, visiting the freshly inserted blocks
next); a failed lowering signals pass failure. -/
def runAux (m : ModuleTable) : Nat → Func → Nat → LowerState → DriverResult
  | 0, _, _, _ => .outOfFuel
  | fuel + 1, f, i, st =>
    match f.blocks[i]? with
    | none => .done f st
    | some blk =>
      match findStructured blk.ops with
      | none => runAux m fuel f (i + 1) st
      | some k =>
        match blk.ops[k]? with
        | none => .crashed .indexOutOfRange
        | some op =>
          match op.kind with
          | .ifOp _ _ =>
            match LowerIfOp f i k m st with
            | .ok f₁ st₁ => runAux m fuel f₁ (i + 1) st₁
            | .fail f₁ st₁ => .failed f₁ st₁
            | .crash e => .crashed e
          | .whileOp _ _ =>
            match LowerWhileOp f i k m st with
            | .ok f₁ st₁ => runAux m fuel f₁ (i + 1) st₁
            | .fail f₁ st₁ => .failed f₁ st₁
            | .crash e => .crashed e
          | _ => .crashed .wrongOpKind

/-- Fuel budget sufficient for the whole run: each successful lowering
removes one structured op and adds three blocks, each skip advances one
block. -/
def driverFuel (f : Func) : Nat :=
  4 * structuredCount f + f.blocks.length + 1

/-- `FunctionalControlFlowToCFG::runOnFunction`. -/
def runOnFunction (m : ModuleTable) (f : Func) (st : LowerState) : DriverResult :=
  runAux m (driverFuel f) f 0 st

/-- Structured-op count of block `j` (0 when out of range). -/
def bcAt (f : Func) (j : Nat) : Nat :=
  match f.blocks[j]? with
  | some blk => blockStructured blk
  | none => 0

/-- Projection of a `done` driver result (empty function otherwise);
used to state concrete runs. -/
def doneFuncOf (r : DriverResult) : Func :=
  match r with
  | .done f _ => f
  | _ => ⟨[]⟩

/-- Projection of a `done` driver result's state. -/
def doneStateOf (r : DriverResult) : LowerState :=
  match r with
  | .done _ st => st
  | _ => ⟨0, 0, [], []⟩

/-! ## Concrete instances used as witnesses -/

/-- Rank-0 boolean tensor type. -/
def tBool : MType := .tensor (some []) (.int 1)

/-- Rank-0 32-bit integer tensor type. -/
def tI32 : MType := .tensor (some []) (.int 32)

/-- Rank-1 boolean tensor type. -/
def tBoolVec : MType := .tensor (some [4]) (.int 1)

/-- Example module: 10/11 = zero-signature then/else callees, 12 = a
well-typed cond callee, 13 = a zero-signature body callee, 14 = a cond
callee returning a rank-0 i32 tensor, 15/16 = then/else callees with one
rank-0 boolean tensor result. -/
def exMod : ModuleTable :=
  [(10, ⟨[], []⟩), (11, ⟨[], []⟩), (12, ⟨[], [tBool]⟩), (13, ⟨[], []⟩),
   (14, ⟨[], [tI32]⟩), (15, ⟨[], [tBool]⟩), (16, ⟨[], [tBool]⟩)]

/-- An IfOp with no data operands and no results, condition value 1. -/
def exIfOp : Op := ⟨.ifOp 10 11, [1], [], 7⟩

/-- A block-terminating return op. -/
def exRet : Op := ⟨.ret, [], [], 8⟩

/-- A single-block function containing `exIfOp`. -/
def exIfFunc : Func := ⟨[⟨0, [], [exIfOp, exRet]⟩]⟩

/-- State typing value 1 as a rank-0 boolean tensor. -/
def exSt : LowerState := ⟨100, 20, [(1, tBool)], []⟩

/-- A WhileOp whose cond callee (14) returns a rank-0 i32 tensor. -/
def exWhileBadOp : Op := ⟨.whileOp 14 13, [], [], 5⟩

/-- Function containing the badly-conditioned WhileOp. -/
def exWhileBadFunc : Func := ⟨[⟨0, [], [exWhileBadOp, exRet]⟩]⟩

/-- An IfOp whose then-callee name (99) is absent from `exMod`. -/
def exIfMissingOp : Op := ⟨.ifOp 99 11, [1], [], 7⟩

/-- Function containing the missing-callee IfOp. -/
def exIfMissingFunc : Func := ⟨[⟨0, [], [exIfMissingOp, exRet]⟩]⟩

/-- A WhileOp whose cond-callee name (99) is absent from `exMod`. -/
def exWhileMissingOp : Op := ⟨.whileOp 99 13, [], [], 5⟩

/-- Function containing the missing-callee WhileOp. -/
def exWhileMissingFunc : Func := ⟨[⟨0, [], [exWhileMissingOp, exRet]⟩]⟩

/-- A second independent IfOp, condition value 2. -/
def exIfOp2 : Op := ⟨.ifOp 10 11, [2], [], 9⟩

/-- A well-formed WhileOp using cond callee 12 and body callee 13. -/
def exWhileOp : Op := ⟨.whileOp 12 13, [], [], 5⟩

/-- Function containing the well-formed WhileOp. -/
def exWhileFunc : Func := ⟨[⟨0, [], [exWhileOp, exRet]⟩]⟩

/-- Driver example per the spec's test: two independent IfOps and one
WhileOp in one block. -/
def exDrvFunc : Func := ⟨[⟨0, [], [exIfOp, exIfOp2, exWhileOp, exRet]⟩]⟩

/-- State typing values 1 and 2 as rank-0 boolean tensors. -/
def exSt2 : LowerState := ⟨100, 20, [(2, tBool), (1, tBool)], []⟩

/-- An IfOp whose condition value 3 is a rank-0 i32 tensor. -/
def exIfBadCondOp : Op := ⟨.ifOp 10 11, [3], [], 7⟩

/-- State typing value 3 as a rank-0 i32 tensor. -/
def exStBad : LowerState := ⟨100, 20, [(3, tI32)], []⟩

/-- Function containing the badly-conditioned IfOp. -/
def exIfBadFunc : Func := ⟨[⟨0, [], [exIfBadCondOp, exRet]⟩]⟩

/-- An IfOp with one result (value 50) whose callees 15/16 return one
rank-0 boolean tensor. -/
def exIfResOp : Op := ⟨.ifOp 15 16, [1], [⟨50, tBool⟩], 7⟩

/-- An op using the IfOp's result value 50. -/
def exUseOp : Op := ⟨.other 3, [50], [], 8⟩

/-- Function with a one-result IfOp and a downstream use of the
result. -/
def exIfResFunc : Func := ⟨[⟨0, [], [exIfResOp, exUseOp, exRet]⟩]⟩

/-- State typing values 1 and 50. -/
def exStRes : LowerState := ⟨100, 20, [(1, tBool), (50, tBool)], []⟩

/-- State typing value 9 as a rank-1 boolean tensor. -/
def exStVec : LowerState := ⟨100, 20, [(9, tBoolVec)], []⟩

/-- Projection of a successful lowering's function (empty function
otherwise). -/
def lowerOkFunc (r : LowerResult) : Func :=
  match r with
  | .ok f _ => f
  | _ => ⟨[]⟩

/-- Projection of a successful lowering's state. -/
def lowerOkState (r : LowerResult) : LowerState :=
  match r with
  | .ok _ st => st
  | _ => ⟨0, 0, [], []⟩

/-- Whether a lowering returned success (the C++ `false` return). -/
def isOkResult (r : LowerResult) : Bool :=
  match r with
  | .ok _ _ => true
  | _ => false

/-! ## Substitution and counting basics -/

theorem isStructured_substOp (σ : Nat → Nat) (o : Op) :
    isStructured (substOp σ o) = isStructured o := by
  cases o with
  | mk kind operands results loc => cases kind <;> rfl

theorem countP_map_substOp (σ : Nat → Nat) (l : List Op) :
    (l.map (substOp σ)).countP isStructured = l.countP isStructured := by
  rw [List.countP_map]
  exact List.countP_congr (fun o _ => by
    simp [Function.comp, isStructured_substOp])

theorem blockStructured_substBlock (σ : Nat → Nat) (b : Block) :
    blockStructured (substBlock σ b) = blockStructured b :=
  countP_map_substOp σ b.ops

theorem substFunc_blocks (σ : Nat → Nat) (f : Func) :
    (substFunc σ f).blocks = f.blocks.map (substBlock σ) := rfl

theorem substFunc_length (σ : Nat → Nat) (f : Func) :
    (substFunc σ f).blocks.length = f.blocks.length := by
  simp [substFunc]

theorem structuredCount_substFunc (σ : Nat → Nat) (f : Func) :
    structuredCount (substFunc σ f) = structuredCount f := by
  unfold structuredCount substFunc
  rw [List.map_map]
  congr 1
  exact List.map_congr_left (fun b _ => blockStructured_substBlock σ b)

theorem bcAt_substFunc (σ : Nat → Nat) (f : Func) (j : Nat) :
    bcAt (substFunc σ f) j = bcAt f j := by
  unfold bcAt substFunc
  simp only [List.getElem?_map]
  cases f.blocks[j]? with
  | none => rfl
  | some blk => simp [blockStructured_substBlock]

theorem replaceUses_length (f : Func) (r a : Nat) :
    (replaceUses f r a).blocks.length = f.blocks.length :=
  substFunc_length _ f

theorem structuredCount_replaceUses (f : Func) (r a : Nat) :
    structuredCount (replaceUses f r a) = structuredCount f :=
  structuredCount_substFunc _ f

theorem bcAt_replaceUses (f : Func) (r a : Nat) (j : Nat) :
    bcAt (replaceUses f r a) j = bcAt f j :=
  bcAt_substFunc _ f j

theorem substOp_substOp (σ₁ σ₂ : Nat → Nat) (o : Op) :
    substOp σ₂ (substOp σ₁ o) = substOp (fun v => σ₂ (σ₁ v)) o := by
  cases o with
  | mk kind operands results loc =>
    cases kind <;>
      simp [substOp, substKind, List.map_map, Option.map_map, Function.comp_def]

theorem substBlock_substBlock (σ₁ σ₂ : Nat → Nat) (b : Block) :
    substBlock σ₂ (substBlock σ₁ b) = substBlock (fun v => σ₂ (σ₁ v)) b := by
  unfold substBlock
  simp only [List.map_map]
  congr 1
  exact List.map_congr_left (fun o _ => substOp_substOp σ₁ σ₂ o)

theorem substFunc_substFunc (σ₁ σ₂ : Nat → Nat) (f : Func) :
    substFunc σ₂ (substFunc σ₁ f) = substFunc (fun v => σ₂ (σ₁ v)) f := by
  unfold substFunc
  simp only [List.map_map, Func.mk.injEq]
  exact List.map_congr_left (fun b _ => substBlock_substBlock σ₁ σ₂ b)

theorem substFunc_congr {σ₁ σ₂ : Nat → Nat} (h : ∀ v, σ₁ v = σ₂ v) (f : Func) :
    substFunc σ₁ f = substFunc σ₂ f := by
  have : σ₁ = σ₂ := funext h
  rw [this]

/-! ## The driver's inner scan -/

theorem findStructured_none {ops : List Op} (h : findStructured ops = none) :
    ops.countP isStructured = 0 := by
  induction ops with
  | nil => rfl
  | cons o rest ih =>
    unfold findStructured at h
    by_cases hs : isStructured o
    · rw [if_pos hs] at h
      exact absurd h (by simp)
    · rw [if_neg hs] at h
      have hr : findStructured rest = none := by
        cases hr : findStructured rest with
        | none => rfl
        | some k => rw [hr] at h; exact absurd h (by simp)
      have hb : isStructured o = false := Bool.not_eq_true _ ▸ eq_false_of_ne_true hs
      simp [List.countP_cons, hb, ih hr]

theorem findStructured_some {ops : List Op} {k : Nat}
    (h : findStructured ops = some k) :
    ∃ op, ops[k]? = some op ∧ isStructured op = true ∧
      (ops.take k).countP isStructured = 0 := by
  induction ops generalizing k with
  | nil => exact absurd h (by simp [findStructured])
  | cons o rest ih =>
    unfold findStructured at h
    by_cases hs : isStructured o
    · rw [if_pos hs] at h
      have hk0 : k = 0 := by
        have := h
        simp only [Option.some.injEq] at this
        omega
      subst hk0
      exact ⟨o, by simp, hs, by simp⟩
    · rw [if_neg hs] at h
      match hk : findStructured rest with
      | none => rw [hk] at h; exact absurd h (by simp)
      | some k₀ =>
        rw [hk] at h
        simp only [Option.map_some', Option.some.injEq] at h
        subst h
        obtain ⟨op, h1, h2, h3⟩ := ih hk
        have hb : isStructured o = false := eq_false_of_ne_true hs
        exact ⟨op, by simpa using h1, h2, by simp [List.countP_cons, hb, h3]⟩

/-! ## Fresh-value helpers -/

theorem freshArgs_length (tys : List MType) (st : LowerState) :
    (freshArgs tys st).1.length = tys.length := by
  induction tys generalizing st with
  | nil => rfl
  | cons t ts ih => simp [freshArgs, ih]

theorem freshArgs_tys (tys : List MType) (st : LowerState) :
    (freshArgs tys st).1.map (fun a => a.ty) = tys := by
  induction tys generalizing st with
  | nil => rfl
  | cons t ts ih => simp [freshArgs, ih]

theorem freshVal_nextVal (ty : MType) (st : LowerState) :
    (freshVal ty st).2.nextVal = st.nextVal + 1 := rfl

theorem freshArgs_nextVal_le (tys : List MType) (st : LowerState) :
    st.nextVal ≤ (freshArgs tys st).2.nextVal := by
  induction tys generalizing st with
  | nil => exact Nat.le_refl _
  | cons t ts ih =>
    simp only [freshArgs]
    exact Nat.le_trans (Nat.le_succ _) (ih (freshVal t st).2)

theorem freshArgs_ids_ge (tys : List MType) (st : LowerState) :
    ∀ a ∈ (freshArgs tys st).1, st.nextVal ≤ a.id := by
  induction tys generalizing st with
  | nil => intro a ha; simp [freshArgs] at ha
  | cons t ts ih =>
    intro a ha
    simp only [freshArgs, List.mem_cons] at ha
    rcases ha with h | h
    · subst h; exact Nat.le_refl _
    · exact Nat.le_trans (Nat.le_succ _) (ih (freshVal t st).2 a h)

/-! ## Identity substitution -/

theorem substOp_id (o : Op) : substOp (fun v => v) o = o := by
  cases o with
  | mk kind operands results loc =>
    cases kind <;>
      simp [substOp, substKind, List.map_id, Option.map_id]

theorem substBlock_id (b : Block) : substBlock (fun v => v) b = b := by
  unfold substBlock
  cases b with
  | mk bid args ops =>
    simp only [Block.mk.injEq, true_and]
    exact List.map_congr_left (fun o _ => substOp_id o) |>.trans (List.map_id ops)

theorem substFunc_id (f : Func) : substFunc (fun v => v) f = f := by
  unfold substFunc
  cases f with
  | mk blocks =>
    simp only [Func.mk.injEq]
    exact List.map_congr_left (fun b _ => substBlock_id b) |>.trans
      (List.map_id blocks)

/-! ## The lookup substitution -/

theorem lookupSubst_nil (v : Nat) : lookupSubst [] v = v := rfl

theorem lookupSubst_cons_self (p : Nat × Nat) (rest : List (Nat × Nat)) :
    lookupSubst (p :: rest) p.1 = p.2 := by
  simp [lookupSubst, List.find?_cons]

theorem lookupSubst_cons_ne (p : Nat × Nat) (rest : List (Nat × Nat)) (v : Nat)
    (h : p.1 ≠ v) :
    lookupSubst (p :: rest) v = lookupSubst rest v := by
  simp only [lookupSubst, List.find?_cons]
  have : (p.1 == v) = false := beq_false_of_ne h
  rw [this]

theorem lookupSubst_not_key (pairs : List (Nat × Nat)) (v : Nat)
    (h : ∀ q ∈ pairs, q.1 ≠ v) : lookupSubst pairs v = v := by
  induction pairs with
  | nil => rfl
  | cons p rest ih =>
    rw [lookupSubst_cons_ne p rest v (h p (List.mem_cons_self p rest))]
    exact ih (fun q hq => h q (List.mem_cons_of_mem p hq))

theorem lookupSubst_zip (keys vals : List Nat) (hnd : keys.Nodup) :
    ∀ i (h1 : i < keys.length) (h2 : i < vals.length),
      lookupSubst (keys.zip vals) (keys.get ⟨i, h1⟩) = vals.get ⟨i, h2⟩ := by
  induction keys generalizing vals with
  | nil => intro i h1; exact absurd h1 (by simp)
  | cons key krest ih =>
    intro i h1 h2
    match vals, h2 with
    | val :: vrest, h2 =>
      match i with
      | 0 => exact lookupSubst_cons_self (key, val) (krest.zip vrest)
      | j + 1 =>
        have hj : j < krest.length := by simpa using h1
        have hmem : krest.get ⟨j, hj⟩ ∈ krest := krest.get_mem j hj
        have hne : key ≠ krest.get ⟨j, hj⟩ := by
          intro hcontra
          exact (List.nodup_cons.1 hnd).1 (hcontra ▸ hmem)
        show lookupSubst ((key, val) :: krest.zip vrest) (krest.get ⟨j, hj⟩) =
          vrest.get ⟨j, by simpa using h2⟩
        rw [lookupSubst_cons_ne (key, val) _ _ hne]
        exact ih vrest (List.nodup_cons.1 hnd).2 j hj (by simpa using h2)

/-! ## Sequential result-by-result replacement equals the simultaneous
substitution (the replaced ids are old, the replacement ids fresh) -/

theorem foldl_replaceUses_eq_substFunc (pairs : List (Nat × Nat)) :
    ∀ f, (∀ p ∈ pairs, ∀ q ∈ pairs, p.2 ≠ q.1) →
      pairs.foldl (fun g p => replaceUses g p.1 p.2) f =
        substFunc (lookupSubst pairs) f := by
  induction pairs with
  | nil =>
    intro f _
    simp only [List.foldl_nil]
    rw [show lookupSubst [] = fun v => v from rfl]
    exact (substFunc_id f).symm
  | cons pr rest ih =>
    intro f h
    simp only [List.foldl_cons]
    rw [ih (replaceUses f pr.1 pr.2)
      (fun p hp q hq =>
        h p (List.mem_cons_of_mem pr hp) q (List.mem_cons_of_mem pr hq))]
    rw [replaceUses, substFunc_substFunc]
    apply substFunc_congr
    intro v
    show lookupSubst rest (pointSubst pr.1 pr.2 v) = lookupSubst (pr :: rest) v
    by_cases hv : v = pr.1
    · subst hv
      have h1 : pointSubst pr.1 pr.2 pr.1 = pr.2 := by simp [pointSubst]
      rw [h1]
      have h2 : ∀ q ∈ rest, q.1 ≠ pr.2 := by
        intro q hq hcontra
        exact h pr (List.mem_cons_self pr rest) q (List.mem_cons_of_mem pr hq)
          hcontra.symm
      rw [lookupSubst_not_key rest pr.2 h2]
      exact (lookupSubst_cons_self pr rest).symm
    · have h1 : pointSubst pr.1 pr.2 v = v := by simp [pointSubst, hv]
      rw [h1, lookupSubst_cons_ne pr rest v (fun hc => hv hc.symm)]

/-! ## Block surgery -/

theorem sum_map_set_nat {α : Type} (g : α → Nat) (l : List α) :
    ∀ (n : Nat) (b a : α), l[n]? = some a →
      ((l.set n b).map g).sum + g a = (l.map g).sum + g b := by
  induction l with
  | nil => intro n b a h; exact absurd h (by simp)
  | cons x xs ih =>
    intro n b a h
    match n with
    | 0 =>
      have hx : x = a := by simpa using h
      subst hx
      simp only [List.set_cons_zero, List.map_cons, List.sum_cons]
      omega
    | j + 1 =>
      have hj : xs[j]? = some a := by simpa using h
      have := ih j b a hj
      simp only [List.set_cons_succ, List.map_cons, List.sum_cons]
      omega

theorem modifyBlock_length (f : Func) (bi : Nat) (g : Block → Block) :
    (modifyBlock f bi g).blocks.length = f.blocks.length := by
  unfold modifyBlock
  cases f.blocks[bi]? with
  | none => rfl
  | some blk => simp

theorem modifyBlock_getElem_self {f : Func} {bi : Nat} (g : Block → Block)
    {blk : Block} (h : f.blocks[bi]? = some blk) :
    (modifyBlock f bi g).blocks[bi]? = some (g blk) := by
  unfold modifyBlock
  rw [h]
  have hlt : bi < f.blocks.length := (List.getElem?_eq_some_iff.1 h).1
  simp [List.getElem?_set_self hlt]

theorem modifyBlock_getElem_ne (f : Func) (bi : Nat) (g : Block → Block)
    (j : Nat) (h : j ≠ bi) :
    (modifyBlock f bi g).blocks[j]? = f.blocks[j]? := by
  unfold modifyBlock
  cases f.blocks[bi]? with
  | none => rfl
  | some blk => simpa using List.getElem?_set_ne (fun hc => h hc.symm)

theorem structuredCount_modifyBlock {f : Func} {bi : Nat} (g : Block → Block)
    {blk : Block} (h : f.blocks[bi]? = some blk) :
    structuredCount (modifyBlock f bi g) + blockStructured blk =
      structuredCount f + blockStructured (g blk) := by
  unfold modifyBlock structuredCount
  rw [h]
  exact sum_map_set_nat blockStructured f.blocks bi (g blk) blk h

theorem countP_insert_not_structured (l : List Op) (pos : Nat) (o : Op)
    (ho : isStructured o = false) :
    (l.take pos ++ o :: l.drop pos).countP isStructured =
      l.countP isStructured := by
  rw [List.countP_append, List.countP_cons, ho]
  have h2 : (if (false = true) then 1 else 0) = 0 := by simp
  rw [h2, Nat.add_zero, ← List.countP_append, List.take_append_drop]

theorem insertOpAt_length (f : Func) (bi pos : Nat) (o : Op) :
    (insertOpAt f bi pos o).blocks.length = f.blocks.length :=
  modifyBlock_length f bi _

theorem structuredCount_insertOpAt (f : Func) (bi pos : Nat) (o : Op)
    (ho : isStructured o = false) :
    structuredCount (insertOpAt f bi pos o) = structuredCount f := by
  cases hb : f.blocks[bi]? with
  | none =>
    have hid : insertOpAt f bi pos o = f := by
      unfold insertOpAt modifyBlock
      rw [hb]
    rw [hid]
  | some blk =>
    have h1 := structuredCount_modifyBlock
      (fun b => { b with ops := b.ops.take pos ++ o :: b.ops.drop pos }) hb
    simp only [] at h1
    have hbc : blockStructured
        { blk with ops := blk.ops.take pos ++ o :: blk.ops.drop pos } =
        blockStructured blk := countP_insert_not_structured blk.ops pos o ho
    unfold insertOpAt
    omega

theorem bcAt_insertOpAt (f : Func) (bi pos : Nat) (o : Op)
    (ho : isStructured o = false) (j : Nat) :
    bcAt (insertOpAt f bi pos o) j = bcAt f j := by
  by_cases hj : j = bi
  · subst hj
    cases hb : f.blocks[j]? with
    | none =>
      have hid : insertOpAt f j pos o = f := by
        unfold insertOpAt modifyBlock
        rw [hb]
      rw [hid]
    | some blk =>
      have h1 : (insertOpAt f j pos o).blocks[j]? =
          some { blk with ops := blk.ops.take pos ++ o :: blk.ops.drop pos } :=
        modifyBlock_getElem_self _ hb
      unfold bcAt
      rw [h1, hb]
      exact countP_insert_not_structured blk.ops pos o ho
  · unfold bcAt
    rw [show (insertOpAt f bi pos o).blocks[j]? = f.blocks[j]? from
      modifyBlock_getElem_ne f bi _ j hj]

/-! ## The cast-insertion helpers produce no structured ops -/

theorem adaptValue_ops_not_structured (loc v : Nat) (expected : MType)
    (st : LowerState) :
    ∀ o ∈ (adaptValue loc v expected st).2.1, isStructured o = false := by
  intro o ho
  unfold adaptValue at ho
  by_cases h : typeOf st v = some expected
  · rw [if_pos h] at ho
    exact absurd ho (by simp)
  · rw [if_neg h] at ho
    have : o = ⟨.tensorCast, [v], [⟨(freshVal expected st).1, expected⟩], loc⟩ := by
      simpa using ho
    subst this
    rfl

theorem adaptArgsGo_ok_not_structured {loc : Nat} {get : Nat → Option Nat} :
    ∀ {tys : List MType} {i : Nat} {st : LowerState} {vs : List Nat}
      {ops : List Op} {st' : LowerState},
      adaptArgsGo loc get i tys st = .ok (vs, ops, st') →
      ∀ o ∈ ops, isStructured o = false := by
  intro tys
  induction tys with
  | nil =>
    intro i st vs ops st' h o ho
    unfold adaptArgsGo at h
    have : ops = [] := by
      simp only [Except.ok.injEq, Prod.mk.injEq] at h
      exact h.2.1.symm
    subst this
    exact absurd ho (by simp)
  | cons t ts ih =>
    intro i st vs ops st' h o ho
    simp only [adaptArgsGo] at h
    match hg : get i with
    | none => rw [hg] at h; exact absurd h (by simp)
    | some v =>
      rw [hg] at h
      simp only [] at h
      match hrec : adaptArgsGo loc get (i + 1) ts (adaptValue loc v t st).2.2 with
      | .error e => rw [hrec] at h; exact absurd h (by simp)
      | .ok (vs₀, ops₀, st₀) =>
        rw [hrec] at h
        simp only [Except.ok.injEq, Prod.mk.injEq] at h
        have hops : ops = (adaptValue loc v t st).2.1 ++ ops₀ := h.2.1.symm
        subst hops
        rcases List.mem_append.1 ho with hc | hc
        · exact adaptValue_ops_not_structured loc v t st o hc
        · exact ih hrec o hc

theorem adaptArgsGo_error {loc : Nat} {get : Nat → Option Nat} :
    ∀ {tys : List MType} {i : Nat} {st : LowerState} {e : Err},
      adaptArgsGo loc get i tys st = .error e → e = .indexOutOfRange := by
  intro tys
  induction tys with
  | nil =>
    intro i st e h
    exact absurd h (by simp [adaptArgsGo])
  | cons t ts ih =>
    intro i st e h
    simp only [adaptArgsGo] at h
    match hg : get i with
    | none =>
      rw [hg] at h
      simpa using h.symm
    | some v =>
      rw [hg] at h
      simp only [] at h
      match hrec : adaptArgsGo loc get (i + 1) ts (adaptValue loc v t st).2.2 with
      | .error e₀ =>
        rw [hrec] at h
        have : e = e₀ := by simpa using h.symm
        subst this
        exact ih hrec
      | .ok r => rw [hrec] at h; exact absurd h (by simp)

theorem CallFn_ok_not_structured {loc : Nat} {get : Nat → Option Nat}
    {fn : Option FuncSig} {callee : Nat} {st : LowerState} {ops : List Op}
    {res : List Arg} {st' : LowerState}
    (h : CallFn loc get fn callee st = .ok (ops, res, st')) :
    ∀ o ∈ ops, isStructured o = false := by
  unfold CallFn at h
  match fn with
  | none => exact absurd h (by simp)
  | some sig =>
    simp only [] at h
    match hAd : adaptArgs loc get sig.inputs st with
    | .error e => rw [hAd] at h; exact absurd h (by simp)
    | .ok (vals, casts, st₁) =>
      rw [hAd] at h
      simp only [Except.ok.injEq, Prod.mk.injEq] at h
      intro o ho
      rw [← h.1] at ho
      rcases List.mem_append.1 ho with hc | hc
      · exact adaptArgsGo_ok_not_structured hAd o hc
      · have : o = ⟨.call callee, vals, (freshArgs sig.results st₁).1, loc⟩ := by
          simpa using hc
        subst this
        rfl

theorem CallFn_error {loc : Nat} {get : Nat → Option Nat} {fn : Option FuncSig}
    {callee : Nat} {st : LowerState} {e : Err}
    (h : CallFn loc get fn callee st = .error e) :
    e = .nullFunctionDeref ∨ e = .indexOutOfRange := by
  unfold CallFn at h
  match fn with
  | none =>
    have : e = .nullFunctionDeref := by simpa using h.symm
    exact Or.inl this
  | some sig =>
    simp only [] at h
    match hAd : adaptArgs loc get sig.inputs st with
    | .error e₀ =>
      rw [hAd] at h
      have : e = e₀ := by simpa using h.symm
      subst this
      exact Or.inr (adaptArgsGo_error hAd)
    | .ok r => rw [hAd] at h; exact absurd h (by simp)

theorem JumpToBlock_ok_not_structured {loc : Nat} {get : Nat → Option Nat}
    {blockArgs : List Arg} {dest : Nat} {st : LowerState} {ops : List Op}
    {st' : LowerState}
    (h : JumpToBlock loc get blockArgs dest st = .ok (ops, st')) :
    ∀ o ∈ ops, isStructured o = false := by
  unfold JumpToBlock at h
  match hP : PrepareValsForJump loc get blockArgs st with
  | .error e => rw [hP] at h; exact absurd h (by simp)
  | .ok (vals, casts, st₁) =>
    rw [hP] at h
    simp only [Except.ok.injEq, Prod.mk.injEq] at h
    intro o ho
    rw [← h.1] at ho
    rcases List.mem_append.1 ho with hc | hc
    · exact adaptArgsGo_ok_not_structured hP o hc
    · have : o = ⟨.br dest vals, [], [], loc⟩ := by simpa using hc
      subst this
      rfl

theorem JumpToBlock_error {loc : Nat} {get : Nat → Option Nat}
    {blockArgs : List Arg} {dest : Nat} {st : LowerState} {e : Err}
    (h : JumpToBlock loc get blockArgs dest st = .error e) :
    e = .indexOutOfRange := by
  unfold JumpToBlock at h
  match hP : PrepareValsForJump loc get blockArgs st with
  | .error e₀ =>
    rw [hP] at h
    have : e = e₀ := by simpa using h.symm
    subst this
    exact adaptArgsGo_error hP
  | .ok r => rw [hP] at h; exact absurd h (by simp)

theorem LowerConditionWhile_ok_not_structured {loc v : Nat} {st : LowerState}
    {oc : Option Nat} {ops : List Op} {st' : LowerState}
    (h : LowerConditionWhile loc v st = .ok (oc, ops, st')) :
    ∀ o ∈ ops, isStructured o = false := by
  unfold LowerConditionWhile LowerCondition at h
  match ht : typeOf st v with
  | some (.tensor shape e) =>
    rw [ht] at h
    simp only [] at h
    by_cases hc : shape = some ([] : List Nat) ∧ e = .int 1
    · rw [if_pos hc] at h
      simp only [Except.ok.injEq, Prod.mk.injEq] at h
      intro o ho
      rw [← h.2.1] at ho
      have : o = ⟨.extractElement, [v],
          [⟨(freshVal (.scalar e) st).1, .scalar e⟩], loc⟩ := by simpa using ho
      subst this
      rfl
    · rw [if_neg hc] at h
      simp only [Except.ok.injEq, Prod.mk.injEq] at h
      intro o ho
      rw [← h.2.1] at ho
      exact absurd ho (by simp)
  | some (.scalar e) =>
    rw [ht] at h
    simp only [] at h
    exact absurd h (by simp)
  | none =>
    rw [ht] at h
    simp only [] at h
    exact absurd h (by simp)

theorem LowerConditionWhile_error {loc v : Nat} {st : LowerState} {e : Err}
    (h : LowerConditionWhile loc v st = .error e) : e = .castNotTensor := by
  unfold LowerConditionWhile LowerCondition at h
  match ht : typeOf st v with
  | some (.tensor shape ek) =>
    rw [ht] at h
    simp only [] at h
    by_cases hc : shape = some ([] : List Nat) ∧ ek = .int 1
    · rw [if_pos hc] at h; exact absurd h (by simp)
    · rw [if_neg hc] at h; exact absurd h (by simp)
  | some (.scalar ek) =>
    rw [ht] at h
    simp only [] at h
    simpa using h.symm
  | none =>
    rw [ht] at h
    simp only [] at h
    simpa using h.symm

/-! ## Properties of the result-rewriting loop -/

theorem isStructured_cast (arg : Nat) (res : Arg) (loc : Nat) :
    isStructured ⟨.tensorCast, [arg], [res], loc⟩ = false := rfl

theorem replaceGo_length (loc bi : Nat) (pairs : List (Arg × Arg)) :
    ∀ cnt f st,
      ((replaceGo loc bi pairs cnt f st).1).blocks.length = f.blocks.length := by
  induction pairs with
  | nil => intro cnt f st; rfl
  | cons pr rest ih =>
    intro cnt f st
    match pr with
    | (res, arg) =>
      simp only [replaceGo]
      by_cases ht : arg.ty = res.ty
      · rw [if_pos ht, ih]
        exact replaceUses_length f res.id arg.id
      · rw [if_neg ht, ih, replaceUses_length, insertOpAt_length]

theorem replaceGo_structuredCount (loc bi : Nat) (pairs : List (Arg × Arg)) :
    ∀ cnt f st,
      structuredCount ((replaceGo loc bi pairs cnt f st).1) =
        structuredCount f := by
  induction pairs with
  | nil => intro cnt f st; rfl
  | cons pr rest ih =>
    intro cnt f st
    match pr with
    | (res, arg) =>
      simp only [replaceGo]
      by_cases ht : arg.ty = res.ty
      · rw [if_pos ht, ih]
        exact structuredCount_replaceUses f res.id arg.id
      · rw [if_neg ht, ih, structuredCount_replaceUses,
          structuredCount_insertOpAt]
        exact isStructured_cast _ _ _

theorem replaceGo_bcAt (loc bi : Nat) (pairs : List (Arg × Arg)) :
    ∀ cnt f st j,
      bcAt ((replaceGo loc bi pairs cnt f st).1) j = bcAt f j := by
  induction pairs with
  | nil => intro cnt f st j; rfl
  | cons pr rest ih =>
    intro cnt f st j
    match pr with
    | (res, arg) =>
      simp only [replaceGo]
      by_cases ht : arg.ty = res.ty
      · rw [if_pos ht, ih]
        exact bcAt_replaceUses f res.id arg.id j
      · rw [if_neg ht, ih, bcAt_replaceUses, bcAt_insertOpAt]
        exact isStructured_cast _ _ _

theorem replaceGo_nocast (loc bi : Nat) (pairs : List (Arg × Arg)) :
    ∀ cnt f st, (∀ p ∈ pairs, p.2.ty = p.1.ty) →
      replaceGo loc bi pairs cnt f st =
        (pairs.foldl (fun g p => replaceUses g p.1.id p.2.id) f, st, cnt) := by
  induction pairs with
  | nil => intro cnt f st _; rfl
  | cons pr rest ih =>
    intro cnt f st h
    match pr with
    | (res, arg) =>
      simp only [replaceGo, List.foldl_cons]
      rw [if_pos (h (res, arg) (List.mem_cons_self _ _))]
      exact ih cnt _ st (fun p hp => h p (List.mem_cons_of_mem _ hp))

theorem replaceGo_shape (loc bi : Nat) (pairs : List (Arg × Arg)) :
    ∀ cnt f st blk, f.blocks[bi]? = some blk → cnt ≤ blk.ops.length →
    ∃ blk' σ,
      ((replaceGo loc bi pairs cnt f st).1).blocks[bi]? = some blk' ∧
      blk'.bid = blk.bid ∧ blk'.args = blk.args ∧
      (replaceGo loc bi pairs cnt f st).2.2 ≤ blk'.ops.length ∧
      blk'.ops.drop ((replaceGo loc bi pairs cnt f st).2.2) =
        (blk.ops.drop cnt).map (substOp σ) ∧
      (blk'.ops.take ((replaceGo loc bi pairs cnt f st).2.2)).countP
          isStructured =
        (blk.ops.take cnt).countP isStructured ∧
      (∀ v, (∀ p ∈ pairs, p.1.id ≠ v) → σ v = v) ∧
      (∀ j, j ≠ bi → ((replaceGo loc bi pairs cnt f st).1).blocks[j]? =
        (f.blocks[j]?).map (substBlock σ)) := by
  induction pairs with
  | nil =>
    intro cnt f st blk hblk hcnt
    refine ⟨blk, fun v => v, hblk, rfl, rfl, hcnt, ?_, rfl, fun v _ => rfl, ?_⟩
    · have h0 : (blk.ops.drop cnt).map (substOp (fun v => v)) =
          blk.ops.drop cnt := by
        rw [List.map_congr_left (fun o _ => substOp_id o)]
        exact List.map_id _
      rw [h0]
      rfl
    · intro j _
      show f.blocks[j]? = _
      cases hj : f.blocks[j]? with
      | none => rfl
      | some bb => simp [substBlock_id bb]
  | cons pr rest ih =>
    intro cnt f st blk hblk hcnt
    match pr with
    | (res, arg) =>
      simp only [replaceGo]
      by_cases ht : arg.ty = res.ty
      · rw [if_pos ht]
        have hblk1 : (replaceUses f res.id arg.id).blocks[bi]? =
            some (substBlock (pointSubst res.id arg.id) blk) := by
          unfold replaceUses substFunc
          simp [List.getElem?_map, hblk]
        have hcnt1 :
            cnt ≤ (substBlock (pointSubst res.id arg.id) blk).ops.length := by
          simpa [substBlock] using hcnt
        obtain ⟨blk', σ, h1, h2, h3, h4, h5, h6, h7, h8⟩ := ih cnt _ st _ hblk1 hcnt1
        refine ⟨blk', fun v => σ (pointSubst res.id arg.id v), h1, h2, h3, h4,
          ?_, ?_, ?_, ?_⟩
        · rw [h5]
          rw [show (substBlock (pointSubst res.id arg.id) blk).ops =
              blk.ops.map (substOp (pointSubst res.id arg.id)) from rfl]
          rw [← List.map_drop, List.map_map]
          exact List.map_congr_left (fun o _ => substOp_substOp _ σ o)
        · rw [h6]
          rw [show (substBlock (pointSubst res.id arg.id) blk).ops =
              blk.ops.map (substOp (pointSubst res.id arg.id)) from rfl]
          rw [← List.map_take, countP_map_substOp]
        · intro v hv
          show σ (pointSubst res.id arg.id v) = v
          have hpt : pointSubst res.id arg.id v = v := by
            unfold pointSubst
            rw [if_neg (fun hc =>
              hv (res, arg) (List.mem_cons_self _ _) hc.symm)]
          rw [hpt]
          exact h7 v (fun p hp => hv p (List.mem_cons_of_mem _ hp))
        · intro j hj
          rw [h8 j hj]
          show ((substFunc (pointSubst res.id arg.id) f).blocks[j]?).map _ = _
          rw [substFunc_blocks, List.getElem?_map]
          cases hx : f.blocks[j]? with
          | none => rfl
          | some bb =>
            simp only [Option.map_some']
            exact congrArg some (substBlock_substBlock _ _ bb)
      · rw [if_neg ht]
        have hblkI : (insertOpAt f bi cnt
              ⟨.tensorCast, [arg.id], [⟨(freshVal res.ty st).1, res.ty⟩],
                loc⟩).blocks[bi]? =
            some { blk with ops := blk.ops.take cnt ++
              (⟨.tensorCast, [arg.id], [⟨(freshVal res.ty st).1, res.ty⟩],
                loc⟩ : Op) :: blk.ops.drop cnt } :=
          modifyBlock_getElem_self _ hblk
        have hsplit : blk.ops.take cnt ++
            (⟨.tensorCast, [arg.id], [⟨(freshVal res.ty st).1, res.ty⟩],
              loc⟩ : Op) :: blk.ops.drop cnt =
            (blk.ops.take cnt ++
              [⟨.tensorCast, [arg.id], [⟨(freshVal res.ty st).1, res.ty⟩],
                loc⟩]) ++ blk.ops.drop cnt := by simp
        have hlenpre : (blk.ops.take cnt ++
            [(⟨.tensorCast, [arg.id], [⟨(freshVal res.ty st).1, res.ty⟩],
              loc⟩ : Op)]).length = cnt + 1 := by
          simp [List.length_take, Nat.min_eq_left hcnt]
        have hblk2 : (replaceUses (insertOpAt f bi cnt
              ⟨.tensorCast, [arg.id], [⟨(freshVal res.ty st).1, res.ty⟩], loc⟩)
              res.id (freshVal res.ty st).1).blocks[bi]? =
            some (substBlock (pointSubst res.id (freshVal res.ty st).1)
              { blk with ops := blk.ops.take cnt ++
                (⟨.tensorCast, [arg.id], [⟨(freshVal res.ty st).1, res.ty⟩],
                  loc⟩ : Op) :: blk.ops.drop cnt }) := by
          unfold replaceUses substFunc
          simp [List.getElem?_map, hblkI]
        have hcnt2 : cnt + 1 ≤
            (substBlock (pointSubst res.id (freshVal res.ty st).1)
              { blk with ops := blk.ops.take cnt ++
                (⟨.tensorCast, [arg.id], [⟨(freshVal res.ty st).1, res.ty⟩],
                  loc⟩ : Op) :: blk.ops.drop cnt }).ops.length := by
          simp only [substBlock, List.length_map, hsplit, List.length_append,
            hlenpre]
          have := List.length_drop cnt blk.ops
          omega
        obtain ⟨blk', σ, h1, h2, h3, h4, h5, h6, h7, h8⟩ :=
          ih (cnt + 1) _ _ _ hblk2 hcnt2
        refine ⟨blk', fun v => σ (pointSubst res.id (freshVal res.ty st).1 v),
          h1, by rw [h2]; rfl, by rw [h3]; rfl, h4, ?_, ?_, ?_, ?_⟩
        · rw [h5]
          rw [show (substBlock (pointSubst res.id (freshVal res.ty st).1)
              { blk with ops := blk.ops.take cnt ++
                (⟨.tensorCast, [arg.id], [⟨(freshVal res.ty st).1, res.ty⟩],
                  loc⟩ : Op) :: blk.ops.drop cnt }).ops =
              (blk.ops.take cnt ++
                (⟨.tensorCast, [arg.id], [⟨(freshVal res.ty st).1, res.ty⟩],
                  loc⟩ : Op) :: blk.ops.drop cnt).map
                (substOp (pointSubst res.id (freshVal res.ty st).1)) from rfl]
          rw [← List.map_drop, hsplit, ← hlenpre, List.drop_left, List.map_map]
          exact List.map_congr_left (fun o _ => substOp_substOp _ σ o)
        · rw [h6]
          rw [show (substBlock (pointSubst res.id (freshVal res.ty st).1)
              { blk with ops := blk.ops.take cnt ++
                (⟨.tensorCast, [arg.id], [⟨(freshVal res.ty st).1, res.ty⟩],
                  loc⟩ : Op) :: blk.ops.drop cnt }).ops =
              (blk.ops.take cnt ++
                (⟨.tensorCast, [arg.id], [⟨(freshVal res.ty st).1, res.ty⟩],
                  loc⟩ : Op) :: blk.ops.drop cnt).map
                (substOp (pointSubst res.id (freshVal res.ty st).1)) from rfl]
          rw [← List.map_take, hsplit, ← hlenpre, List.take_left,
            List.map_append, List.countP_append, countP_map_substOp]
          have hc : List.countP isStructured
              (([⟨.tensorCast, [arg.id], [⟨(freshVal res.ty st).1, res.ty⟩],
                loc⟩] : List Op).map
                (substOp (pointSubst res.id (freshVal res.ty st).1))) = 0 := by
            simp [substOp, substKind, isStructured]
          rw [hc, Nat.add_zero]
        · intro v hv
          show σ (pointSubst res.id (freshVal res.ty st).1 v) = v
          have hpt : pointSubst res.id (freshVal res.ty st).1 v = v := by
            unfold pointSubst
            rw [if_neg (fun hc =>
              hv (res, arg) (List.mem_cons_self _ _) hc.symm)]
          rw [hpt]
          exact h7 v (fun p hp => hv p (List.mem_cons_of_mem _ hp))
        · intro j hj
          rw [h8 j hj]
          show ((substFunc (pointSubst res.id (freshVal res.ty st).1)
            (insertOpAt f bi cnt _)).blocks[j]?).map _ = _
          rw [substFunc_blocks, List.getElem?_map]
          have hins : (insertOpAt f bi cnt
              (⟨.tensorCast, [arg.id], [⟨(freshVal res.ty st).1, res.ty⟩],
                loc⟩ : Op)).blocks[j]? = f.blocks[j]? :=
            modifyBlock_getElem_ne f bi _ j (fun hc => hj hc)
          rw [hins]
          cases hx : f.blocks[j]? with
          | none => rfl
          | some bb =>
            simp only [Option.map_some']
            exact congrArg some (substBlock_substBlock _ _ bb)

theorem Replace_ok_inv {loc : Nat} {op : Op} {bi : Nat} {f : Func}
    {st : LowerState} {f' : Func} {st' : LowerState} {cnt : Nat}
    (h : ReplaceOpResultWithBlockArgs loc op bi f st = .ok (f', st', cnt)) :
    ∃ blk, f.blocks[bi]? = some blk ∧ op.results.length = blk.args.length ∧
      replaceGo loc bi (op.results.zip blk.args) 0 f st = (f', st', cnt) := by
  unfold ReplaceOpResultWithBlockArgs at h
  match hb : f.blocks[bi]? with
  | none => rw [hb] at h; exact absurd h (by simp)
  | some blk =>
    rw [hb] at h
    simp only [] at h
    by_cases hl : op.results.length = blk.args.length
    · rw [if_pos hl] at h
      refine ⟨blk, rfl, hl, ?_⟩
      simpa using h
    · rw [if_neg hl] at h
      exact absurd h (by simp)

theorem Replace_assert_iff (loc : Nat) (op : Op) (bi : Nat) (f : Func)
    (st : LowerState) :
    ReplaceOpResultWithBlockArgs loc op bi f st = .error .assertResultCount ↔
      ∃ blk, f.blocks[bi]? = some blk ∧
        op.results.length ≠ blk.args.length := by
  constructor
  · intro h
    unfold ReplaceOpResultWithBlockArgs at h
    match hb : f.blocks[bi]? with
    | none =>
      rw [hb] at h
      exact absurd h (by simp)
    | some blk =>
      rw [hb] at h
      simp only [] at h
      by_cases hl : op.results.length = blk.args.length
      · rw [if_pos hl] at h
        exact absurd h (by simp)
      · exact ⟨blk, rfl, hl⟩
  · intro ⟨blk, hb, hl⟩
    unfold ReplaceOpResultWithBlockArgs
    rw [hb]
    simp only []
    rw [if_neg hl]

/-! ## Inversion of a successful `LowerIfOp` -/

theorem LowerIfOp_ok_inv {f : Func} {b k : Nat} {m : ModuleTable}
    {st : LowerState} {f' : Func} {st' : LowerState}
    (h : LowerIfOp f b k m st = .ok f' st') :
    ∃ blk op thenName elseName cond extractOp condVal st₁ margs stm f₂ st₄ cnt
      mergeBlk₂ op₂ thenCall thenRes st₆ thenJump st₇ elseCall elseRes st₉
      elseJump st₁₀ origBlk₂,
      f.blocks[b]? = some blk ∧
      blk.ops[k]? = some op ∧
      op.kind = .ifOp thenName elseName ∧
      op.operands[0]? = some cond ∧
      LowerCondition op.loc cond st = .ok extractOp condVal st₁ ∧
      freshArgs (op.results.map (fun r => r.ty)) (freshBid st₁).2 =
        (margs, stm) ∧
      ReplaceOpResultWithBlockArgs op.loc op (b + 1)
        ⟨f.blocks.take b ++
          (⟨blk.bid, blk.args, blk.ops.take k ++ [extractOp]⟩ : Block) ::
          (⟨(freshBid st₁).1, margs, op :: blk.ops.drop (k + 1)⟩ : Block) ::
          f.blocks.drop (b + 1)⟩ stm = .ok (f₂, st₄, cnt) ∧
      f₂.blocks[b + 1]? = some mergeBlk₂ ∧
      mergeBlk₂.ops[cnt]? = some op₂ ∧
      CallFn op.loc (fun i => op₂.operands[i + 1]?) (findFn m thenName)
        thenName (freshBid st₄).2 = .ok (thenCall, thenRes, st₆) ∧
      JumpToBlock op.loc (fun i => (thenRes[i]?).map (fun a => a.id))
        mergeBlk₂.args (freshBid st₁).1 st₆ = .ok (thenJump, st₇) ∧
      CallFn op.loc (fun i => op₂.operands[i + 1]?) (findFn m elseName)
        elseName (freshBid st₇).2 = .ok (elseCall, elseRes, st₉) ∧
      JumpToBlock op.loc (fun i => (elseRes[i]?).map (fun a => a.id))
        mergeBlk₂.args (freshBid st₁).1 st₉ = .ok (elseJump, st₁₀) ∧
      f₂.blocks[b]? = some origBlk₂ ∧
      f' = ⟨f₂.blocks.take b ++
        ({ origBlk₂ with ops := origBlk₂.ops ++
            [⟨.condBr (some condVal) (freshBid st₄).1 [] (freshBid st₇).1 [],
              [], [], op.loc⟩] } : Block) ::
        (⟨(freshBid st₄).1, [], thenCall ++ thenJump⟩ : Block) ::
        (⟨(freshBid st₇).1, [], elseCall ++ elseJump⟩ : Block) ::
        ({ mergeBlk₂ with ops := mergeBlk₂.ops.take cnt ++
            mergeBlk₂.ops.drop (cnt + 1) } : Block) ::
        f₂.blocks.drop (b + 2)⟩ ∧
      st' = st₁₀ := by
  unfold LowerIfOp at h
  split at h
  next => exact absurd h (by simp)
  next blk hblk =>
  split at h
  next => exact absurd h (by simp)
  next op hop =>
  split at h
  next thenName elseName hkind =>
    split at h
    next => exact absurd h (by simp)
    next cond hcond =>
    split at h
    next e hlc => exact absurd h (by simp)
    next st1 hlc => exact absurd h (by simp)
    next extractOp condVal st1 hlc =>
    simp only [] at h
    split at h
    next e hrep => exact absurd h (by simp)
    next f2 st4 cnt hrep =>
    split at h
    next hmerge => exact absurd h (by simp)
    next mergeBlk2 hmerge =>
    split at h
    next => exact absurd h (by simp)
    next op2 hop2 =>
    split at h
    next e hcall => exact absurd h (by simp)
    next thenCall thenRes st6 hcall =>
    split at h
    next e hjump => exact absurd h (by simp)
    next thenJump st7 hjump =>
    split at h
    next e hcall2 => exact absurd h (by simp)
    next elseCall elseRes st9 hcall2 =>
    split at h
    next e hjump2 => exact absurd h (by simp)
    next elseJump st10 hjump2 =>
    split at h
    next horig => exact absurd h (by simp)
    next origBlk2 horig =>
    simp only [LowerResult.ok.injEq] at h
    exact ⟨blk, op, thenName, elseName, cond, extractOp, condVal, st1, _, _,
      f2, st4, cnt, mergeBlk2, op2, thenCall, thenRes, st6, thenJump, st7,
      elseCall, elseRes, st9, elseJump, st10, origBlk2,
      hblk, hop, hkind, hcond, hlc, rfl, hrep, hmerge, hop2, hcall, hjump,
      hcall2, hjump2, horig, h.1.symm, h.2.symm⟩
  next hk => exact absurd h (by simp)

/-! ## Inversion of a successful `LowerWhileOp` -/

theorem LowerWhileOp_ok_inv {f : Func} {b k : Nat} {m : ModuleTable}
    {st : LowerState} {f' : Func} {st' : LowerState}
    (h : LowerWhileOp f b k m st = .ok f' st') :
    ∃ blk op condName bodyName condSig bodySig cargs stca bargs stba targs
      stta headJump st₇ condCall condRes st₈ r0 optCond extractOps st₉ brVals
      brCasts st₁₀ bodyCall bodyRes st₁₁ bodyJump st₁₂ f₂ st₁₃ cnt,
      f.blocks[b]? = some blk ∧
      blk.ops[k]? = some op ∧
      op.kind = .whileOp condName bodyName ∧
      findFn m condName = some condSig ∧
      findFn m bodyName = some bodySig ∧
      freshArgs condSig.inputs (freshBid (freshBid (freshBid st).2).2).2 =
        (cargs, stca) ∧
      freshArgs bodySig.inputs stca = (bargs, stba) ∧
      freshArgs bodySig.inputs stba = (targs, stta) ∧
      JumpToBlock op.loc (fun i => op.operands[i]?) cargs
        (freshBid (freshBid st).2).1 stta = .ok (headJump, st₇) ∧
      CallFn op.loc (fun i => (cargs[i]?).map (fun a => a.id)) (some condSig)
        condName st₇ = .ok (condCall, condRes, st₈) ∧
      condRes.length = 1 ∧
      condRes[0]? = some r0 ∧
      LowerConditionWhile op.loc r0.id st₈ = .ok (optCond, extractOps, st₉) ∧
      PrepareValsForJump op.loc (fun i => (cargs[i]?).map (fun a => a.id))
        bargs st₉ = .ok (brVals, brCasts, st₁₀) ∧
      CallFn op.loc (fun i => (bargs[i]?).map (fun a => a.id)) (some bodySig)
        bodyName st₁₀ = .ok (bodyCall, bodyRes, st₁₁) ∧
      JumpToBlock op.loc (fun i => (bodyRes[i]?).map (fun a => a.id)) cargs
        (freshBid (freshBid st).2).1 st₁₁ = .ok (bodyJump, st₁₂) ∧
      ReplaceOpResultWithBlockArgs op.loc op (b + 3)
        ⟨f.blocks.take b ++
          (⟨blk.bid, blk.args, blk.ops.take k ++ headJump⟩ : Block) ::
          (⟨(freshBid (freshBid st).2).1, cargs,
            condCall ++ extractOps ++ brCasts ++
              [⟨.condBr optCond (freshBid (freshBid (freshBid st).2).2).1
                brVals (freshBid st).1 brVals, [], [], op.loc⟩]⟩ : Block) ::
          (⟨(freshBid (freshBid (freshBid st).2).2).1, bargs,
            bodyCall ++ bodyJump⟩ : Block) ::
          (⟨(freshBid st).1, targs, op :: blk.ops.drop (k + 1)⟩ : Block) ::
          f.blocks.drop (b + 1)⟩ st₁₂ = .ok (f₂, st₁₃, cnt) ∧
      f' = eraseOpAt f₂ (b + 3) cnt ∧
      st' = st₁₃ := by
  unfold LowerWhileOp at h
  split at h
  next => exact absurd h (by simp)
  next blk hblk =>
  split at h
  next => exact absurd h (by simp)
  next op hop =>
  split at h
  next condName bodyName hkind =>
    simp only [] at h
    split at h
    next => exact absurd h (by simp)
    next condSig hcond =>
    split at h
    next => exact absurd h (by simp)
    next bodySig hbody =>
    split at h
    next e hjump => exact absurd h (by simp)
    next headJump st7 hjump =>
    split at h
    next e hcall => exact absurd h (by simp)
    next condCall condRes st8 hcall =>
    split at h
    next hlen =>
      split at h
      next => exact absurd h (by simp)
      next r0 hr0 =>
      split at h
      next e hlcw => exact absurd h (by simp)
      next optCond extractOps st9 hlcw =>
      split at h
      next e hprep => exact absurd h (by simp)
      next brVals brCasts st10 hprep =>
      split at h
      next e hcallb => exact absurd h (by simp)
      next bodyCall bodyRes st11 hcallb =>
      split at h
      next e hjumpb => exact absurd h (by simp)
      next bodyJump st12 hjumpb =>
      split at h
      next e hrep => exact absurd h (by simp)
      next f2 st13 cnt hrep =>
      simp only [LowerResult.ok.injEq] at h
      exact ⟨blk, op, condName, bodyName, condSig, bodySig, _, _, _, _, _, _,
        headJump, st7, condCall, condRes, st8, r0, optCond, extractOps, st9,
        brVals, brCasts, st10, bodyCall, bodyRes, st11, bodyJump, st12,
        f2, st13, cnt,
        hblk, hop, hkind, hcond, hbody, rfl, rfl, rfl, hjump, hcall, hlen,
        hr0, hlcw, hprep, hcallb, hjumpb, hrep, h.1.symm, h.2.symm⟩
    next hlen => exact absurd h (by simp)
  next hk => exact absurd h (by simp)

/-! ## Decomposition helpers -/

theorem list_eq_take_cons_drop {α : Type} {l : List α} {k : Nat} {x : α}
    (h : l[k]? = some x) : l = l.take k ++ x :: l.drop (k + 1) := by
  obtain ⟨hlt, hget⟩ := List.getElem?_eq_some_iff.1 h
  conv_lhs => rw [← List.take_append_drop k l]
  rw [List.drop_eq_getElem_cons hlt, hget]

theorem getElem?_take_append {α : Type} (X : List α) (b i : Nat)
    (hb : b ≤ X.length) (rest : List α) :
    (X.take b ++ rest)[b + i]? = rest[i]? := by
  have hlen : (X.take b).length = b := by
    rw [List.length_take]
    exact Nat.min_eq_left hb
  rw [List.getElem?_append_right (by rw [hlen]; exact Nat.le_add_right b i)]
  rw [hlen]
  congr 1
  omega

theorem getElem?_take_append_lt {α : Type} (X : List α) (b j : Nat)
    (hb : b ≤ X.length) (hj : j < b) (rest : List α) :
    (X.take b ++ rest)[j]? = X[j]? := by
  have hlen : (X.take b).length = b := by
    rw [List.length_take]
    exact Nat.min_eq_left hb
  rw [List.getElem?_append]
  rw [if_pos (by rw [hlen]; exact hj)]
  rw [List.getElem?_take, if_pos hj]

theorem structuredCount_mk_append (l₁ l₂ : List Block) :
    structuredCount ⟨l₁ ++ l₂⟩ = structuredCount ⟨l₁⟩ + structuredCount ⟨l₂⟩ := by
  simp [structuredCount]

theorem structuredCount_mk_cons (x : Block) (l : List Block) :
    structuredCount ⟨x :: l⟩ = blockStructured x + structuredCount ⟨l⟩ := by
  simp [structuredCount]

theorem countP_eq_zero_of_not_structured {l : List Op}
    (h : ∀ o ∈ l, isStructured o = false) : l.countP isStructured = 0 := by
  induction l with
  | nil => rfl
  | cons o rest ih =>
    rw [List.countP_cons, h o (List.mem_cons_self o rest),
      ih (fun o ho => h o (List.mem_cons_of_mem _ ho))]
    simp

/-- Inversion of a successful `LowerCondition`. -/
theorem LowerCondition_ok_inv {loc v : Nat} {st : LowerState} {extractOp : Op}
    {x : Nat} {st₁ : LowerState}
    (h : LowerCondition loc v st = .ok extractOp x st₁) :
    ∃ shape e, typeOf st v = some (.tensor shape e) ∧
      shape = some ([] : List Nat) ∧ e = .int 1 ∧
      extractOp = ⟨.extractElement, [v],
        [⟨(freshVal (.scalar e) st).1, .scalar e⟩], loc⟩ ∧
      x = (freshVal (.scalar e) st).1 ∧ st₁ = (freshVal (.scalar e) st).2 := by
  unfold LowerCondition at h
  split at h
  next shape e ht =>
    split at h
    next hc =>
      simp only [CondResult.ok.injEq] at h
      exact ⟨shape, e, ht, hc.1, hc.2, h.1.symm, h.2.1.symm, h.2.2.symm⟩
    next hc => exact absurd h (by simp)
  next ht => exact absurd h (by simp)

theorem bcAt_of_getElem {f : Func} {j : Nat} {blk : Block}
    (h : f.blocks[j]? = some blk) : bcAt f j = blockStructured blk := by
  unfold bcAt
  rw [h]

/-! ## The net effect of `LowerIfOp` on block counts -/

theorem LowerIfOp_ok_facts {f : Func} {b k : Nat} {m : ModuleTable}
    {st : LowerState} {f' : Func} {st' : LowerState}
    (h : LowerIfOp f b k m st = .ok f' st') :
    structuredCount f' + 1 = structuredCount f ∧
    f'.blocks.length = f.blocks.length + 3 ∧
    ∃ blk, f.blocks[b]? = some blk ∧
      (∀ j, j < b → bcAt f' j = bcAt f j) ∧
      bcAt f' b = (blk.ops.take k).countP isStructured := by
  obtain ⟨blk, op, tn, en, cond, extractOp, condVal, st₁, margs, stm, f₂, st₄,
    cnt, mergeBlk₂, op₂, thenCall, thenRes, st₆, thenJump, st₇, elseCall,
    elseRes, st₉, elseJump, st₁₀, origBlk₂, hblk, hop, hkind, hcond, hlc, hfa,
    hrep, hmerge, hop2, hcall, hjump, hcall2, hjump2, horig, hf', hst'⟩ :=
    LowerIfOp_ok_inv h
  have hblt : b < f.blocks.length := (List.getElem?_eq_some_iff.1 hblk).1
  have hble : b ≤ f.blocks.length := Nat.le_of_lt hblt
  have hxkind : isStructured extractOp = false := by
    obtain ⟨shape, e, _, _, _, hx, _, _⟩ := LowerCondition_ok_inv hlc
    rw [hx]
    rfl
  have hopstr : isStructured op = true := by
    unfold isStructured
    rw [hkind]
  -- the split function f₁
  obtain ⟨blkR, hblkR, hlenR, hgo⟩ := Replace_ok_inv hrep
  have hf₁get : (⟨f.blocks.take b ++
      (⟨blk.bid, blk.args, blk.ops.take k ++ [extractOp]⟩ : Block) ::
      (⟨(freshBid st₁).1, margs, op :: blk.ops.drop (k + 1)⟩ : Block) ::
      f.blocks.drop (b + 1)⟩ : Func).blocks[b + 1]? =
      some (⟨(freshBid st₁).1, margs, op :: blk.ops.drop (k + 1)⟩ : Block) := by
    show (f.blocks.take b ++ _)[b + 1]? = _
    rw [getElem?_take_append f.blocks b 1 hble]
    simp
  have hblkR' : blkR =
      (⟨(freshBid st₁).1, margs, op :: blk.ops.drop (k + 1)⟩ : Block) := by
    rw [hblkR] at hf₁get
    exact Option.some.inj hf₁get
  subst hblkR'
  -- structured count through replaceGo
  have hSCgo : structuredCount f₂ = structuredCount
      ⟨f.blocks.take b ++
        (⟨blk.bid, blk.args, blk.ops.take k ++ [extractOp]⟩ : Block) ::
        (⟨(freshBid st₁).1, margs, op :: blk.ops.drop (k + 1)⟩ : Block) ::
        f.blocks.drop (b + 1)⟩ := by
    have := replaceGo_structuredCount op.loc (b + 1)
      (op.results.zip margs) 0
      ⟨f.blocks.take b ++
        (⟨blk.bid, blk.args, blk.ops.take k ++ [extractOp]⟩ : Block) ::
        (⟨(freshBid st₁).1, margs, op :: blk.ops.drop (k + 1)⟩ : Block) ::
        f.blocks.drop (b + 1)⟩ stm
    rw [hgo] at this
    exact this
  have hLgo : f₂.blocks.length = b + 2 + (f.blocks.length - (b + 1)) := by
    have := replaceGo_length op.loc (b + 1) (op.results.zip margs) 0
      ⟨f.blocks.take b ++
        (⟨blk.bid, blk.args, blk.ops.take k ++ [extractOp]⟩ : Block) ::
        (⟨(freshBid st₁).1, margs, op :: blk.ops.drop (k + 1)⟩ : Block) ::
        f.blocks.drop (b + 1)⟩ stm
    rw [hgo] at this
    rw [this]
    simp [List.length_take]
    omega
  have hbcAtgo : ∀ j, bcAt f₂ j = bcAt
      ⟨f.blocks.take b ++
        (⟨blk.bid, blk.args, blk.ops.take k ++ [extractOp]⟩ : Block) ::
        (⟨(freshBid st₁).1, margs, op :: blk.ops.drop (k + 1)⟩ : Block) ::
        f.blocks.drop (b + 1)⟩ j := by
    intro j
    have := replaceGo_bcAt op.loc (b + 1) (op.results.zip margs) 0
      ⟨f.blocks.take b ++
        (⟨blk.bid, blk.args, blk.ops.take k ++ [extractOp]⟩ : Block) ::
        (⟨(freshBid st₁).1, margs, op :: blk.ops.drop (k + 1)⟩ : Block) ::
        f.blocks.drop (b + 1)⟩ stm j
    rw [hgo] at this
    exact this
  -- shape of the merge block after replaceGo
  obtain ⟨tailB, σ, hs1, hs2, hs3, hs4, hs5, hs6, hs7, hs8⟩ :=
    replaceGo_shape op.loc (b + 1) (op.results.zip margs) 0
      ⟨f.blocks.take b ++
        (⟨blk.bid, blk.args, blk.ops.take k ++ [extractOp]⟩ : Block) ::
        (⟨(freshBid st₁).1, margs, op :: blk.ops.drop (k + 1)⟩ : Block) ::
        f.blocks.drop (b + 1)⟩ stm
      (⟨(freshBid st₁).1, margs, op :: blk.ops.drop (k + 1)⟩ : Block)
      hf₁get (Nat.zero_le _)
  rw [hgo] at hs1 hs4 hs5 hs6
  simp only [] at hs1 hs4 hs5 hs6
  have htailB : tailB = mergeBlk₂ := by
    rw [hs1] at hmerge
    exact Option.some.inj hmerge
  rw [htailB] at hs4 hs5 hs6
  -- merge block ops: cnt casts, then the substituted op and trailing ops
  have hmops : mergeBlk₂.ops.drop cnt =
      substOp σ op :: (blk.ops.drop (k + 1)).map (substOp σ) := by
    rw [hs5]
    simp
  have hmtake : (mergeBlk₂.ops.take cnt).countP isStructured = 0 := by
    rw [hs6]
    simp
  have hmcnt : cnt ≤ mergeBlk₂.ops.length := hs4
  -- counts of the new call blocks
  have hthen0 : (thenCall ++ thenJump).countP isStructured = 0 := by
    apply countP_eq_zero_of_not_structured
    intro o ho
    rcases List.mem_append.1 ho with hc | hc
    · exact CallFn_ok_not_structured hcall o hc
    · exact JumpToBlock_ok_not_structured hjump o hc
  have helse0 : (elseCall ++ elseJump).countP isStructured = 0 := by
    apply countP_eq_zero_of_not_structured
    intro o ho
    rcases List.mem_append.1 ho with hc | hc
    · exact CallFn_ok_not_structured hcall2 o hc
    · exact JumpToBlock_ok_not_structured hjump2 o hc
  -- counts of the split blocks
  have hops : blk.ops = blk.ops.take k ++ op :: blk.ops.drop (k + 1) :=
    list_eq_take_cons_drop hop
  have hbcblk : blockStructured blk =
      (blk.ops.take k).countP isStructured + 1 +
      (blk.ops.drop (k + 1)).countP isStructured := by
    unfold blockStructured
    conv_lhs => rw [hops]
    rw [List.countP_append, List.countP_cons, hopstr]
    simp
    omega
  have hbcO : blockStructured
      (⟨blk.bid, blk.args, blk.ops.take k ++ [extractOp]⟩ : Block) =
      (blk.ops.take k).countP isStructured := by
    unfold blockStructured
    show (blk.ops.take k ++ [extractOp]).countP isStructured = _
    rw [List.countP_append, List.countP_cons, hxkind]
    simp
  have hbcM : blockStructured
      (⟨(freshBid st₁).1, margs, op :: blk.ops.drop (k + 1)⟩ : Block) =
      1 + (blk.ops.drop (k + 1)).countP isStructured := by
    unfold blockStructured
    show (op :: blk.ops.drop (k + 1)).countP isStructured = _
    rw [List.countP_cons, hopstr]
    simp
    omega
  -- the op at position cnt and the trailing ops of the merge block
  have hcd : op₂ = substOp σ op ∧ mergeBlk₂.ops.drop (cnt + 1) =
      (blk.ops.drop (k + 1)).map (substOp σ) := by
    obtain ⟨hcntlt, hget⟩ := List.getElem?_eq_some_iff.1 hop2
    have hx := hmops
    rw [List.drop_eq_getElem_cons hcntlt, hget] at hx
    rw [List.cons.injEq] at hx
    exact hx
  have hop₂str : isStructured op₂ = true := by
    rw [hcd.1, isStructured_substOp]
    exact hopstr
  -- count of the merge block before and after erasing the op
  have hbcM₂ : blockStructured mergeBlk₂ =
      1 + (blk.ops.drop (k + 1)).countP isStructured := by
    unfold blockStructured
    conv_lhs => rw [list_eq_take_cons_drop hop2]
    rw [List.countP_append, List.countP_cons]
    have hite : (if isStructured op₂ = true then 1 else 0) = 1 := by
      rw [hop₂str]
      simp
    rw [hite, hmtake, hcd.2, countP_map_substOp]
    omega
  have hbcM₃ : blockStructured
      ({ mergeBlk₂ with ops := mergeBlk₂.ops.take cnt ++
          mergeBlk₂.ops.drop (cnt + 1) } : Block) =
      (blk.ops.drop (k + 1)).countP isStructured := by
    unfold blockStructured
    show (mergeBlk₂.ops.take cnt ++ mergeBlk₂.ops.drop (cnt + 1)).countP
        isStructured = _
    rw [List.countP_append, hmtake, hcd.2, countP_map_substOp]
    omega
  -- count of the rewritten original block
  have hbcO₃ : blockStructured
      ({ origBlk₂ with ops := origBlk₂.ops ++
          [⟨.condBr (some condVal) (freshBid st₄).1 [] (freshBid st₇).1 [],
            [], [], op.loc⟩] } : Block) = blockStructured origBlk₂ := by
    unfold blockStructured
    show (origBlk₂.ops ++ _).countP isStructured = _
    rw [List.countP_append]
    simp [isStructured]
  -- f₂ decomposition
  have hlen₂ : b + 1 < f₂.blocks.length := by omega
  have hf₂dec : f₂.blocks = f₂.blocks.take b ++ origBlk₂ :: mergeBlk₂ ::
      f₂.blocks.drop (b + 2) := by
    have h1 : f₂.blocks = f₂.blocks.take b ++ origBlk₂ ::
        f₂.blocks.drop (b + 1) := list_eq_take_cons_drop horig
    have h2 : f₂.blocks.drop (b + 1) = mergeBlk₂ :: f₂.blocks.drop (b + 2) := by
      rw [List.drop_eq_getElem_cons hlen₂,
        (List.getElem?_eq_some_iff.1 hmerge).2]
    conv_lhs => rw [h1]
    rw [h2]
  have hSCf₂ : structuredCount f₂ = structuredCount ⟨f₂.blocks.take b⟩ +
      blockStructured origBlk₂ + blockStructured mergeBlk₂ +
      structuredCount ⟨f₂.blocks.drop (b + 2)⟩ := by
    conv_lhs => rw [show f₂ = Func.mk f₂.blocks from rfl, hf₂dec]
    rw [structuredCount_mk_append, structuredCount_mk_cons,
      structuredCount_mk_cons]
    omega
  -- structured count of f'
  have hSCf' : structuredCount f' = structuredCount ⟨f₂.blocks.take b⟩ +
      blockStructured origBlk₂ +
      (blk.ops.drop (k + 1)).countP isStructured +
      structuredCount ⟨f₂.blocks.drop (b + 2)⟩ := by
    rw [hf']
    rw [structuredCount_mk_append, structuredCount_mk_cons,
      structuredCount_mk_cons, structuredCount_mk_cons,
      structuredCount_mk_cons, hbcO₃, hbcM₃]
    have ht : blockStructured
        (⟨(freshBid st₄).1, [], thenCall ++ thenJump⟩ : Block) = 0 := hthen0
    have he : blockStructured
        (⟨(freshBid st₇).1, [], elseCall ++ elseJump⟩ : Block) = 0 := helse0
    rw [ht, he]
    omega
  -- f₁ count
  have hSC₁ : structuredCount
      ⟨f.blocks.take b ++
        (⟨blk.bid, blk.args, blk.ops.take k ++ [extractOp]⟩ : Block) ::
        (⟨(freshBid st₁).1, margs, op :: blk.ops.drop (k + 1)⟩ : Block) ::
        f.blocks.drop (b + 1)⟩ =
      structuredCount ⟨f.blocks.take b⟩ +
      (blk.ops.take k).countP isStructured +
      (1 + (blk.ops.drop (k + 1)).countP isStructured) +
      structuredCount ⟨f.blocks.drop (b + 1)⟩ := by
    rw [structuredCount_mk_append, structuredCount_mk_cons,
      structuredCount_mk_cons, hbcO, hbcM]
    omega
  -- f count
  have hSCf : structuredCount f = structuredCount ⟨f.blocks.take b⟩ +
      ((blk.ops.take k).countP isStructured + 1 +
        (blk.ops.drop (k + 1)).countP isStructured) +
      structuredCount ⟨f.blocks.drop (b + 1)⟩ := by
    conv_lhs => rw [show f = Func.mk f.blocks from rfl,
      list_eq_take_cons_drop hblk]
    rw [structuredCount_mk_append, structuredCount_mk_cons, hbcblk]
    omega
  refine ⟨?_, ?_, blk, hblk, ?_, ?_⟩
  · omega
  · rw [hf']
    show (f₂.blocks.take b ++ _ :: _ :: _ :: _ :: f₂.blocks.drop (b + 2)).length
      = _
    simp only [List.length_append, List.length_take, List.length_cons,
      List.length_drop]
    omega
  · intro j hj
    have h1 : f'.blocks[j]? = f₂.blocks[j]? := by
      rw [hf']
      show (f₂.blocks.take b ++ _)[j]? = _
      exact getElem?_take_append_lt f₂.blocks b j (by omega) hj _
    have h2 : (⟨f.blocks.take b ++
        (⟨blk.bid, blk.args, blk.ops.take k ++ [extractOp]⟩ : Block) ::
        (⟨(freshBid st₁).1, margs, op :: blk.ops.drop (k + 1)⟩ : Block) ::
        f.blocks.drop (b + 1)⟩ : Func).blocks[j]? = f.blocks[j]? := by
      show (f.blocks.take b ++ _)[j]? = _
      exact getElem?_take_append_lt f.blocks b j hble hj _
    have hA : bcAt f' j = bcAt f₂ j := by
      unfold bcAt
      rw [h1]
    have hB : bcAt (⟨f.blocks.take b ++
        (⟨blk.bid, blk.args, blk.ops.take k ++ [extractOp]⟩ : Block) ::
        (⟨(freshBid st₁).1, margs, op :: blk.ops.drop (k + 1)⟩ : Block) ::
        f.blocks.drop (b + 1)⟩ : Func) j = bcAt f j := by
      unfold bcAt
      rw [h2]
    rw [hA, hbcAtgo j, hB]
  · have h1 : f'.blocks[b]? = some
        ({ origBlk₂ with ops := origBlk₂.ops ++
          [⟨.condBr (some condVal) (freshBid st₄).1 [] (freshBid st₇).1 [],
            [], [], op.loc⟩] } : Block) := by
      rw [hf']
      show (f₂.blocks.take b ++ _)[b]? = _
      have hble₂ : b ≤ f₂.blocks.length := by omega
      have := getElem?_take_append f₂.blocks b 0 hble₂
        (({ origBlk₂ with ops := origBlk₂.ops ++
          [⟨.condBr (some condVal) (freshBid st₄).1 [] (freshBid st₇).1 [],
            [], [], op.loc⟩] } : Block) ::
        (⟨(freshBid st₄).1, [], thenCall ++ thenJump⟩ : Block) ::
        (⟨(freshBid st₇).1, [], elseCall ++ elseJump⟩ : Block) ::
        ({ mergeBlk₂ with ops := mergeBlk₂.ops.take cnt ++
            mergeBlk₂.ops.drop (cnt + 1) } : Block) ::
        f₂.blocks.drop (b + 2))
      simpa using this
    have h2 : (⟨f.blocks.take b ++
        (⟨blk.bid, blk.args, blk.ops.take k ++ [extractOp]⟩ : Block) ::
        (⟨(freshBid st₁).1, margs, op :: blk.ops.drop (k + 1)⟩ : Block) ::
        f.blocks.drop (b + 1)⟩ : Func).blocks[b]? = some
        (⟨blk.bid, blk.args, blk.ops.take k ++ [extractOp]⟩ : Block) := by
      show (f.blocks.take b ++ _)[b]? = _
      have := getElem?_take_append f.blocks b 0 hble
        ((⟨blk.bid, blk.args, blk.ops.take k ++ [extractOp]⟩ : Block) ::
        (⟨(freshBid st₁).1, margs, op :: blk.ops.drop (k + 1)⟩ : Block) ::
        f.blocks.drop (b + 1))
      simpa using this
    have h3 : bcAt f₂ b = (blk.ops.take k).countP isStructured := by
      rw [hbcAtgo b, bcAt_of_getElem h2]
      exact hbcO
    rw [bcAt_of_getElem h1, hbcO₃, ← bcAt_of_getElem horig, h3]

theorem PrepareValsForJump_ok_not_structured {loc : Nat} {get : Nat → Option Nat}
    {blockArgs : List Arg} {st : LowerState} {vals : List Nat} {casts : List Op}
    {st' : LowerState}
    (h : PrepareValsForJump loc get blockArgs st = .ok (vals, casts, st')) :
    ∀ o ∈ casts, isStructured o = false :=
  adaptArgsGo_ok_not_structured h

/-! ## The net effect of `LowerWhileOp` on block counts -/

theorem LowerWhileOp_ok_facts {f : Func} {b k : Nat} {m : ModuleTable}
    {st : LowerState} {f' : Func} {st' : LowerState}
    (h : LowerWhileOp f b k m st = .ok f' st') :
    structuredCount f' + 1 = structuredCount f ∧
    f'.blocks.length = f.blocks.length + 3 ∧
    ∃ blk, f.blocks[b]? = some blk ∧
      (∀ j, j < b → bcAt f' j = bcAt f j) ∧
      bcAt f' b = (blk.ops.take k).countP isStructured := by
  obtain ⟨blk, op, condName, bodyName, condSig, bodySig, cargs, stca, bargs,
    stba, targs, stta, headJump, st₇, condCall, condRes, st₈, r0, optCond,
    extractOps, st₉, brVals, brCasts, st₁₀, bodyCall, bodyRes, st₁₁, bodyJump,
    st₁₂, f₂, st₁₃, cnt, hblk, hop, hkind, hcond, hbody, hca, hba, hta, hjump,
    hcall, hlen1, hr0, hlcw, hprep, hcallb, hjumpb, hrep, hf', hst'⟩ :=
    LowerWhileOp_ok_inv h
  have hblt : b < f.blocks.length := (List.getElem?_eq_some_iff.1 hblk).1
  have hble : b ≤ f.blocks.length := Nat.le_of_lt hblt
  have hopstr : isStructured op = true := by
    unfold isStructured
    rw [hkind]
  obtain ⟨blkR, hblkR, hlenR, hgo⟩ := Replace_ok_inv hrep
  have hf₁get : (⟨f.blocks.take b ++
      (⟨blk.bid, blk.args, blk.ops.take k ++ headJump⟩ : Block) ::
      (⟨(freshBid (freshBid st).2).1, cargs,
        condCall ++ extractOps ++ brCasts ++
          [⟨.condBr optCond (freshBid (freshBid (freshBid st).2).2).1 brVals
            (freshBid st).1 brVals, [], [], op.loc⟩]⟩ : Block) ::
      (⟨(freshBid (freshBid (freshBid st).2).2).1, bargs,
        bodyCall ++ bodyJump⟩ : Block) ::
      (⟨(freshBid st).1, targs, op :: blk.ops.drop (k + 1)⟩ : Block) ::
      f.blocks.drop (b + 1)⟩ : Func).blocks[b + 3]? =
      some (⟨(freshBid st).1, targs, op :: blk.ops.drop (k + 1)⟩ : Block) := by
    show (f.blocks.take b ++ _)[b + 3]? = _
    rw [getElem?_take_append f.blocks b 3 hble]
    simp
  have hblkR' : blkR =
      (⟨(freshBid st).1, targs, op :: blk.ops.drop (k + 1)⟩ : Block) := by
    rw [hblkR] at hf₁get
    exact Option.some.inj hf₁get
  rw [hblkR'] at hgo
  have hSCgo : structuredCount f₂ = structuredCount
      ⟨f.blocks.take b ++
        (⟨blk.bid, blk.args, blk.ops.take k ++ headJump⟩ : Block) ::
        (⟨(freshBid (freshBid st).2).1, cargs,
          condCall ++ extractOps ++ brCasts ++
            [⟨.condBr optCond (freshBid (freshBid (freshBid st).2).2).1 brVals
              (freshBid st).1 brVals, [], [], op.loc⟩]⟩ : Block) ::
        (⟨(freshBid (freshBid (freshBid st).2).2).1, bargs,
          bodyCall ++ bodyJump⟩ : Block) ::
        (⟨(freshBid st).1, targs, op :: blk.ops.drop (k + 1)⟩ : Block) ::
        f.blocks.drop (b + 1)⟩ := by
    have := replaceGo_structuredCount op.loc (b + 3)
      (op.results.zip (⟨(freshBid st).1, targs,
        op :: blk.ops.drop (k + 1)⟩ : Block).args) 0
      ⟨f.blocks.take b ++
        (⟨blk.bid, blk.args, blk.ops.take k ++ headJump⟩ : Block) ::
        (⟨(freshBid (freshBid st).2).1, cargs,
          condCall ++ extractOps ++ brCasts ++
            [⟨.condBr optCond (freshBid (freshBid (freshBid st).2).2).1 brVals
              (freshBid st).1 brVals, [], [], op.loc⟩]⟩ : Block) ::
        (⟨(freshBid (freshBid (freshBid st).2).2).1, bargs,
          bodyCall ++ bodyJump⟩ : Block) ::
        (⟨(freshBid st).1, targs, op :: blk.ops.drop (k + 1)⟩ : Block) ::
        f.blocks.drop (b + 1)⟩ st₁₂
    rw [hgo] at this
    exact this
  have hLgo : f₂.blocks.length = b + 4 + (f.blocks.length - (b + 1)) := by
    have := replaceGo_length op.loc (b + 3)
      (op.results.zip (⟨(freshBid st).1, targs,
        op :: blk.ops.drop (k + 1)⟩ : Block).args) 0
      ⟨f.blocks.take b ++
        (⟨blk.bid, blk.args, blk.ops.take k ++ headJump⟩ : Block) ::
        (⟨(freshBid (freshBid st).2).1, cargs,
          condCall ++ extractOps ++ brCasts ++
            [⟨.condBr optCond (freshBid (freshBid (freshBid st).2).2).1 brVals
              (freshBid st).1 brVals, [], [], op.loc⟩]⟩ : Block) ::
        (⟨(freshBid (freshBid (freshBid st).2).2).1, bargs,
          bodyCall ++ bodyJump⟩ : Block) ::
        (⟨(freshBid st).1, targs, op :: blk.ops.drop (k + 1)⟩ : Block) ::
        f.blocks.drop (b + 1)⟩ st₁₂
    rw [hgo] at this
    rw [this]
    simp [List.length_take]
    omega
  have hbcAtgo : ∀ j, bcAt f₂ j = bcAt
      ⟨f.blocks.take b ++
        (⟨blk.bid, blk.args, blk.ops.take k ++ headJump⟩ : Block) ::
        (⟨(freshBid (freshBid st).2).1, cargs,
          condCall ++ extractOps ++ brCasts ++
            [⟨.condBr optCond (freshBid (freshBid (freshBid st).2).2).1 brVals
              (freshBid st).1 brVals, [], [], op.loc⟩]⟩ : Block) ::
        (⟨(freshBid (freshBid (freshBid st).2).2).1, bargs,
          bodyCall ++ bodyJump⟩ : Block) ::
        (⟨(freshBid st).1, targs, op :: blk.ops.drop (k + 1)⟩ : Block) ::
        f.blocks.drop (b + 1)⟩ j := by
    intro j
    have := replaceGo_bcAt op.loc (b + 3)
      (op.results.zip (⟨(freshBid st).1, targs,
        op :: blk.ops.drop (k + 1)⟩ : Block).args) 0
      ⟨f.blocks.take b ++
        (⟨blk.bid, blk.args, blk.ops.take k ++ headJump⟩ : Block) ::
        (⟨(freshBid (freshBid st).2).1, cargs,
          condCall ++ extractOps ++ brCasts ++
            [⟨.condBr optCond (freshBid (freshBid (freshBid st).2).2).1 brVals
              (freshBid st).1 brVals, [], [], op.loc⟩]⟩ : Block) ::
        (⟨(freshBid (freshBid (freshBid st).2).2).1, bargs,
          bodyCall ++ bodyJump⟩ : Block) ::
        (⟨(freshBid st).1, targs, op :: blk.ops.drop (k + 1)⟩ : Block) ::
        f.blocks.drop (b + 1)⟩ st₁₂ j
    rw [hgo] at this
    exact this
  obtain ⟨tail₂, σ, hs1, hs2, hs3, hs4, hs5, hs6, hs7, hs8⟩ :=
    replaceGo_shape op.loc (b + 3)
      (op.results.zip (⟨(freshBid st).1, targs,
        op :: blk.ops.drop (k + 1)⟩ : Block).args) 0
      ⟨f.blocks.take b ++
        (⟨blk.bid, blk.args, blk.ops.take k ++ headJump⟩ : Block) ::
        (⟨(freshBid (freshBid st).2).1, cargs,
          condCall ++ extractOps ++ brCasts ++
            [⟨.condBr optCond (freshBid (freshBid (freshBid st).2).2).1 brVals
              (freshBid st).1 brVals, [], [], op.loc⟩]⟩ : Block) ::
        (⟨(freshBid (freshBid (freshBid st).2).2).1, bargs,
          bodyCall ++ bodyJump⟩ : Block) ::
        (⟨(freshBid st).1, targs, op :: blk.ops.drop (k + 1)⟩ : Block) ::
        f.blocks.drop (b + 1)⟩ st₁₂
      (⟨(freshBid st).1, targs, op :: blk.ops.drop (k + 1)⟩ : Block)
      hf₁get (Nat.zero_le _)
  rw [hgo] at hs1 hs4 hs5 hs6
  simp only [] at hs1 hs4 hs5 hs6
  have hmops : tail₂.ops.drop cnt =
      substOp σ op :: (blk.ops.drop (k + 1)).map (substOp σ) := by
    rw [hs5]
    simp
  have hmtake : (tail₂.ops.take cnt).countP isStructured = 0 := by
    rw [hs6]
    simp
  have hop2w : tail₂.ops[cnt]? = some (substOp σ op) := by
    have h0 : (tail₂.ops.drop cnt)[0]? = tail₂.ops[cnt + 0]? :=
      List.getElem?_drop _ cnt 0
    rw [hmops] at h0
    simpa using h0.symm
  have hcd : tail₂.ops.drop (cnt + 1) =
      (blk.ops.drop (k + 1)).map (substOp σ) := by
    obtain ⟨hcntlt, hget⟩ := List.getElem?_eq_some_iff.1 hop2w
    have hx := hmops
    rw [List.drop_eq_getElem_cons hcntlt, hget] at hx
    rw [List.cons.injEq] at hx
    exact hx.2
  have hop₂str : isStructured (substOp σ op) = true := by
    rw [isStructured_substOp]
    exact hopstr
  -- counts of the assembled blocks
  have hhead0 : (headJump).countP isStructured = 0 :=
    countP_eq_zero_of_not_structured (JumpToBlock_ok_not_structured hjump)
  have hcond0 : (condCall ++ extractOps ++ brCasts ++
      [(⟨.condBr optCond (freshBid (freshBid (freshBid st).2).2).1 brVals
        (freshBid st).1 brVals, [], [], op.loc⟩ : Op)]).countP isStructured
      = 0 := by
    apply countP_eq_zero_of_not_structured
    intro o ho
    rcases List.mem_append.1 ho with ho | ho
    · rcases List.mem_append.1 ho with ho | ho
      · rcases List.mem_append.1 ho with ho | ho
        · exact CallFn_ok_not_structured hcall o ho
        · exact LowerConditionWhile_ok_not_structured hlcw o ho
      · exact PrepareValsForJump_ok_not_structured hprep o ho
    · have : o = (⟨.condBr optCond (freshBid (freshBid (freshBid st).2).2).1
          brVals (freshBid st).1 brVals, [], [], op.loc⟩ : Op) := by
        simpa using ho
      rw [this]
      rfl
  have hbody0 : (bodyCall ++ bodyJump).countP isStructured = 0 := by
    apply countP_eq_zero_of_not_structured
    intro o ho
    rcases List.mem_append.1 ho with ho | ho
    · exact CallFn_ok_not_structured hcallb o ho
    · exact JumpToBlock_ok_not_structured hjumpb o ho
  -- count of the tail block before and after erasing the op
  have hbcT : blockStructured tail₂ =
      1 + (blk.ops.drop (k + 1)).countP isStructured := by
    unfold blockStructured
    conv_lhs => rw [← List.take_append_drop cnt tail₂.ops]
    rw [List.countP_append, hmtake, hmops, List.countP_cons,
      countP_map_substOp]
    have hite : (if isStructured (substOp σ op) = true then 1 else 0) = 1 := by
      rw [hop₂str]
      simp
    rw [hite]
    omega
  have hbcT' : blockStructured
      ({ tail₂ with ops := tail₂.ops.take cnt ++ tail₂.ops.drop (cnt + 1) } :
        Block) = (blk.ops.drop (k + 1)).countP isStructured := by
    unfold blockStructured
    show (tail₂.ops.take cnt ++ tail₂.ops.drop (cnt + 1)).countP isStructured
      = _
    rw [List.countP_append, hmtake, hcd, countP_map_substOp]
    omega
  -- the erase step
  have hSCerase : structuredCount f' + blockStructured tail₂ =
      structuredCount f₂ + blockStructured
        ({ tail₂ with ops := tail₂.ops.take cnt ++
          tail₂.ops.drop (cnt + 1) } : Block) := by
    rw [hf']
    exact structuredCount_modifyBlock
      (fun bb => { bb with ops := bb.ops.take cnt ++ bb.ops.drop (cnt + 1) })
      hs1
  have hLerase : f'.blocks.length = f₂.blocks.length := by
    rw [hf']
    exact modifyBlock_length f₂ (b + 3) _
  -- count of f₁
  have hops : blk.ops = blk.ops.take k ++ op :: blk.ops.drop (k + 1) :=
    list_eq_take_cons_drop hop
  have hbcblk : blockStructured blk =
      (blk.ops.take k).countP isStructured + 1 +
      (blk.ops.drop (k + 1)).countP isStructured := by
    unfold blockStructured
    conv_lhs => rw [hops]
    rw [List.countP_append, List.countP_cons, hopstr]
    simp
    omega
  have hSC₁ : structuredCount
      ⟨f.blocks.take b ++
        (⟨blk.bid, blk.args, blk.ops.take k ++ headJump⟩ : Block) ::
        (⟨(freshBid (freshBid st).2).1, cargs,
          condCall ++ extractOps ++ brCasts ++
            [⟨.condBr optCond (freshBid (freshBid (freshBid st).2).2).1 brVals
              (freshBid st).1 brVals, [], [], op.loc⟩]⟩ : Block) ::
        (⟨(freshBid (freshBid (freshBid st).2).2).1, bargs,
          bodyCall ++ bodyJump⟩ : Block) ::
        (⟨(freshBid st).1, targs, op :: blk.ops.drop (k + 1)⟩ : Block) ::
        f.blocks.drop (b + 1)⟩ =
      structuredCount ⟨f.blocks.take b⟩ +
      (blk.ops.take k).countP isStructured +
      (1 + (blk.ops.drop (k + 1)).countP isStructured) +
      structuredCount ⟨f.blocks.drop (b + 1)⟩ := by
    rw [structuredCount_mk_append, structuredCount_mk_cons,
      structuredCount_mk_cons, structuredCount_mk_cons,
      structuredCount_mk_cons]
    have h1 : blockStructured
        (⟨blk.bid, blk.args, blk.ops.take k ++ headJump⟩ : Block) =
        (blk.ops.take k).countP isStructured := by
      unfold blockStructured
      show (blk.ops.take k ++ headJump).countP isStructured = _
      rw [List.countP_append, hhead0]
      omega
    have h2 : blockStructured
        (⟨(freshBid (freshBid st).2).1, cargs,
          condCall ++ extractOps ++ brCasts ++
            [⟨.condBr optCond (freshBid (freshBid (freshBid st).2).2).1 brVals
              (freshBid st).1 brVals, [], [], op.loc⟩]⟩ : Block) = 0 := hcond0
    have h3 : blockStructured
        (⟨(freshBid (freshBid (freshBid st).2).2).1, bargs,
          bodyCall ++ bodyJump⟩ : Block) = 0 := hbody0
    have h4 : blockStructured
        (⟨(freshBid st).1, targs, op :: blk.ops.drop (k + 1)⟩ : Block) =
        1 + (blk.ops.drop (k + 1)).countP isStructured := by
      unfold blockStructured
      show (op :: blk.ops.drop (k + 1)).countP isStructured = _
      rw [List.countP_cons, hopstr]
      simp
      omega
    rw [h1, h2, h3, h4]
    omega
  have hSCf : structuredCount f = structuredCount ⟨f.blocks.take b⟩ +
      ((blk.ops.take k).countP isStructured + 1 +
        (blk.ops.drop (k + 1)).countP isStructured) +
      structuredCount ⟨f.blocks.drop (b + 1)⟩ := by
    conv_lhs => rw [show f = Func.mk f.blocks from rfl,
      list_eq_take_cons_drop hblk]
    rw [structuredCount_mk_append, structuredCount_mk_cons, hbcblk]
    omega
  refine ⟨?_, ?_, blk, hblk, ?_, ?_⟩
  · omega
  · rw [hLerase, hLgo]
    omega
  · intro j hj
    have hne : j ≠ b + 3 := by omega
    have h1 : f'.blocks[j]? = f₂.blocks[j]? := by
      rw [hf']
      exact modifyBlock_getElem_ne f₂ (b + 3) _ j hne
    have h2 : (⟨f.blocks.take b ++
        (⟨blk.bid, blk.args, blk.ops.take k ++ headJump⟩ : Block) ::
        (⟨(freshBid (freshBid st).2).1, cargs,
          condCall ++ extractOps ++ brCasts ++
            [⟨.condBr optCond (freshBid (freshBid (freshBid st).2).2).1 brVals
              (freshBid st).1 brVals, [], [], op.loc⟩]⟩ : Block) ::
        (⟨(freshBid (freshBid (freshBid st).2).2).1, bargs,
          bodyCall ++ bodyJump⟩ : Block) ::
        (⟨(freshBid st).1, targs, op :: blk.ops.drop (k + 1)⟩ : Block) ::
        f.blocks.drop (b + 1)⟩ : Func).blocks[j]? = f.blocks[j]? := by
      show (f.blocks.take b ++ _)[j]? = _
      exact getElem?_take_append_lt f.blocks b j hble hj _
    have hA : bcAt f' j = bcAt f₂ j := by
      unfold bcAt
      rw [h1]
    rw [hA, hbcAtgo j]
    unfold bcAt
    rw [h2]
  · have hne : b ≠ b + 3 := by omega
    have h1 : f'.blocks[b]? = f₂.blocks[b]? := by
      rw [hf']
      exact modifyBlock_getElem_ne f₂ (b + 3) _ b hne
    have h2 : (⟨f.blocks.take b ++
        (⟨blk.bid, blk.args, blk.ops.take k ++ headJump⟩ : Block) ::
        (⟨(freshBid (freshBid st).2).1, cargs,
          condCall ++ extractOps ++ brCasts ++
            [⟨.condBr optCond (freshBid (freshBid (freshBid st).2).2).1 brVals
              (freshBid st).1 brVals, [], [], op.loc⟩]⟩ : Block) ::
        (⟨(freshBid (freshBid (freshBid st).2).2).1, bargs,
          bodyCall ++ bodyJump⟩ : Block) ::
        (⟨(freshBid st).1, targs, op :: blk.ops.drop (k + 1)⟩ : Block) ::
        f.blocks.drop (b + 1)⟩ : Func).blocks[b]? =
        some (⟨blk.bid, blk.args, blk.ops.take k ++ headJump⟩ : Block) := by
      show (f.blocks.take b ++ _)[b]? = _
      have := getElem?_take_append f.blocks b 0 hble
        ((⟨blk.bid, blk.args, blk.ops.take k ++ headJump⟩ : Block) ::
        (⟨(freshBid (freshBid st).2).1, cargs,
          condCall ++ extractOps ++ brCasts ++
            [⟨.condBr optCond (freshBid (freshBid (freshBid st).2).2).1 brVals
              (freshBid st).1 brVals, [], [], op.loc⟩]⟩ : Block) ::
        (⟨(freshBid (freshBid (freshBid st).2).2).1, bargs,
          bodyCall ++ bodyJump⟩ : Block) ::
        (⟨(freshBid st).1, targs, op :: blk.ops.drop (k + 1)⟩ : Block) ::
        f.blocks.drop (b + 1))
      simpa using this
    have hA : bcAt f' b = bcAt f₂ b := by
      unfold bcAt
      rw [h1]
    rw [hA, hbcAtgo b, bcAt_of_getElem h2]
    unfold blockStructured
    show (blk.ops.take k ++ headJump).countP isStructured = _
    rw [List.countP_append, hhead0]
    omega

/-! ## Driver facts -/

theorem structuredCount_eq_zero_of_bcAt {f : Func}
    (h : ∀ j, j < f.blocks.length → bcAt f j = 0) : structuredCount f = 0 := by
  unfold structuredCount
  apply List.sum_eq_zero
  intro x hx
  rw [List.mem_map] at hx
  obtain ⟨blk, hblk, hbx⟩ := hx
  obtain ⟨j, hj⟩ := List.mem_iff_getElem?.1 hblk
  have hjlt : j < f.blocks.length := (List.getElem?_eq_some_iff.1 hj).1
  have := h j hjlt
  rw [bcAt_of_getElem hj] at this
  rw [← hbx, this]

theorem runAux_no_outOfFuel (m : ModuleTable) :
    ∀ (fuel : Nat) (f : Func) (i : Nat) (st : LowerState),
      4 * structuredCount f + (f.blocks.length - i) < fuel →
      runAux m fuel f i st ≠ .outOfFuel := by
  intro fuel
  induction fuel with
  | zero =>
    intro f i st hlt
    omega
  | succ fuel ih =>
    intro f i st hlt
    show runAux m (fuel + 1) f i st ≠ .outOfFuel
    simp only [runAux]
    match hbi : f.blocks[i]? with
    | none =>
      simp only [hbi]
      simp
    | some blk =>
      simp only [hbi]
      have hilen : i < f.blocks.length := (List.getElem?_eq_some_iff.1 hbi).1
      match hfs : findStructured blk.ops with
      | none =>
        simp only [hfs]
        exact ih f (i + 1) st (by omega)
      | some kk =>
        simp only [hfs]
        match hok : blk.ops[kk]? with
        | none =>
          simp only [hok]
          simp
        | some op =>
          simp only [hok]
          match hkd : op.kind with
          | .ifOp tn en =>
            simp only [hkd]
            match hlow : LowerIfOp f i kk m st with
            | .ok f₁ st₁ =>
              simp only [hlow]
              obtain ⟨hc, hl, _⟩ := LowerIfOp_ok_facts hlow
              exact ih f₁ (i + 1) st₁ (by omega)
            | .fail f₁ st₁ =>
              simp only [hlow]
              simp
            | .crash e =>
              simp only [hlow]
              simp
          | .whileOp cn bn =>
            simp only [hkd]
            match hlow : LowerWhileOp f i kk m st with
            | .ok f₁ st₁ =>
              simp only [hlow]
              obtain ⟨hc, hl, _⟩ := LowerWhileOp_ok_facts hlow
              exact ih f₁ (i + 1) st₁ (by omega)
            | .fail f₁ st₁ =>
              simp only [hlow]
              simp
            | .crash e =>
              simp only [hlow]
              simp
          | .call a => simp only [hkd]; simp
          | .tensorCast => simp only [hkd]; simp
          | .extractElement => simp only [hkd]; simp
          | .br a bb => simp only [hkd]; simp
          | .condBr a bb c d e => simp only [hkd]; simp
          | .ret => simp only [hkd]; simp
          | .other a => simp only [hkd]; simp

theorem runAux_done_count (m : ModuleTable) :
    ∀ (fuel : Nat) (f : Func) (i : Nat) (st : LowerState) (f' : Func)
      (st' : LowerState),
      (∀ j, j < i → bcAt f j = 0) →
      runAux m fuel f i st = .done f' st' → structuredCount f' = 0 := by
  intro fuel
  induction fuel with
  | zero =>
    intro f i st f' st' hinv h
    exact absurd h (by simp [runAux])
  | succ fuel ih =>
    intro f i st f' st' hinv h
    rw [show runAux m (fuel + 1) f i st =
      (match f.blocks[i]? with
      | none => .done f st
      | some blk =>
        match findStructured blk.ops with
        | none => runAux m fuel f (i + 1) st
        | some k =>
          match blk.ops[k]? with
          | none => .crashed .indexOutOfRange
          | some op =>
            match op.kind with
            | .ifOp _ _ =>
              match LowerIfOp f i k m st with
              | .ok f₁ st₁ => runAux m fuel f₁ (i + 1) st₁
              | .fail f₁ st₁ => .failed f₁ st₁
              | .crash e => .crashed e
            | .whileOp _ _ =>
              match LowerWhileOp f i k m st with
              | .ok f₁ st₁ => runAux m fuel f₁ (i + 1) st₁
              | .fail f₁ st₁ => .failed f₁ st₁
              | .crash e => .crashed e
            | _ => .crashed .wrongOpKind) from rfl] at h
    match hbi : f.blocks[i]? with
    | none =>
      simp only [hbi] at h
      simp only [DriverResult.done.injEq] at h
      have hlen : f.blocks.length ≤ i := by
        by_contra hcon
        rw [List.getElem?_eq_none_iff] at hbi
        omega
      rw [← h.1]
      exact structuredCount_eq_zero_of_bcAt
        (fun j hj => hinv j (Nat.lt_of_lt_of_le hj hlen))
    | some blk =>
      simp only [hbi] at h
      have hilen : i < f.blocks.length := (List.getElem?_eq_some_iff.1 hbi).1
      match hfs : findStructured blk.ops with
      | none =>
        simp only [hfs] at h
        have hbc : bcAt f i = 0 := by
          rw [bcAt_of_getElem hbi]
          exact findStructured_none hfs
        refine ih f (i + 1) st f' st' ?_ h
        intro j hj
        by_cases hji : j = i
        · subst hji
          exact hbc
        · exact hinv j (by omega)
      | some kk =>
        simp only [hfs] at h
        obtain ⟨opf, hopf, hopstr, htake0⟩ := findStructured_some hfs
        match hok : blk.ops[kk]? with
        | none => simp only [hok] at h; exact absurd h (by simp)
        | some op =>
          simp only [hok] at h
          match hkd : op.kind with
          | .ifOp tn en =>
            simp only [hkd] at h
            match hlow : LowerIfOp f i kk m st with
            | .ok f₁ st₁ =>
              simp only [hlow] at h
              obtain ⟨hc, hl, blk', hblk', hlow_j, hlow_i⟩ :=
                LowerIfOp_ok_facts hlow
              have hblkeq : blk' = blk := by
                rw [hblk'] at hbi
                exact Option.some.inj hbi
              subst hblkeq
              refine ih f₁ (i + 1) st₁ f' st' ?_ h
              intro j hj
              by_cases hji : j = i
              · subst hji
                rw [hlow_i, htake0]
              · rw [hlow_j j (by omega)]
                exact hinv j (by omega)
            | .fail f₁ st₁ => simp only [hlow] at h; exact absurd h (by simp)
            | .crash e => simp only [hlow] at h; exact absurd h (by simp)
          | .whileOp cn bn =>
            simp only [hkd] at h
            match hlow : LowerWhileOp f i kk m st with
            | .ok f₁ st₁ =>
              simp only [hlow] at h
              obtain ⟨hc, hl, blk', hblk', hlow_j, hlow_i⟩ :=
                LowerWhileOp_ok_facts hlow
              have hblkeq : blk' = blk := by
                rw [hblk'] at hbi
                exact Option.some.inj hbi
              subst hblkeq
              refine ih f₁ (i + 1) st₁ f' st' ?_ h
              intro j hj
              by_cases hji : j = i
              · subst hji
                rw [hlow_i, htake0]
              · rw [hlow_j j (by omega)]
                exact hinv j (by omega)
            | .fail f₁ st₁ => simp only [hlow] at h; exact absurd h (by simp)
            | .crash e => simp only [hlow] at h; exact absurd h (by simp)
          | .call a => simp only [hkd] at h; exact absurd h (by simp)
          | .tensorCast => simp only [hkd] at h; exact absurd h (by simp)
          | .extractElement => simp only [hkd] at h; exact absurd h (by simp)
          | .br a bb => simp only [hkd] at h; exact absurd h (by simp)
          | .condBr a bb c d e => simp only [hkd] at h; exact absurd h (by simp)
          | .ret => simp only [hkd] at h; exact absurd h (by simp)
          | .other a => simp only [hkd] at h; exact absurd h (by simp)

/-! ## The assert never fires at the two call sites -/

theorem LowerCondition_crash {loc v : Nat} {st : LowerState} {e : Err}
    (h : LowerCondition loc v st = .crash e) : e = .castNotTensor := by
  unfold LowerCondition at h
  match ht : typeOf st v with
  | some (.tensor shape ek) =>
    rw [ht] at h
    simp only [] at h
    by_cases hc : shape = some ([] : List Nat) ∧ ek = .int 1
    · rw [if_pos hc] at h; exact absurd h (by simp)
    · rw [if_neg hc] at h; exact absurd h (by simp)
  | some (.scalar ek) =>
    rw [ht] at h
    simp only [] at h
    simpa using h.symm
  | none =>
    rw [ht] at h
    simp only [] at h
    simpa using h.symm

theorem getElem?_take_cons_one {α : Type} (X : List α) (b : Nat)
    (hb : b ≤ X.length) (x0 x1 : α) (rest : List α) :
    (X.take b ++ x0 :: x1 :: rest)[b + 1]? = some x1 := by
  rw [getElem?_take_append X b 1 hb]
  simp

theorem getElem?_take_cons_three {α : Type} (X : List α) (b : Nat)
    (hb : b ≤ X.length) (x0 x1 x2 x3 : α) (rest : List α) :
    (X.take b ++ x0 :: x1 :: x2 :: x3 :: rest)[b + 3]? = some x3 := by
  rw [getElem?_take_append X b 3 hb]
  simp

theorem LowerIfOp_no_assert (f : Func) (b k : Nat) (m : ModuleTable)
    (st : LowerState) : LowerIfOp f b k m st ≠ .crash .assertResultCount := by
  intro hcon
  unfold LowerIfOp at hcon
  split at hcon
  next => exact absurd hcon (by decide)
  next blk hblk =>
  split at hcon
  next => exact absurd hcon (by decide)
  next op hop =>
  split at hcon
  next thenName elseName hkind =>
    split at hcon
    next => exact absurd hcon (by decide)
    next cond hcond =>
    split at hcon
    next e hlc =>
      simp only [LowerResult.crash.injEq] at hcon
      subst hcon
      exact absurd (LowerCondition_crash hlc) (by decide)
    next st1 hlc => exact absurd hcon (by simp)
    next extractOp condVal st1 hlc =>
    simp only [] at hcon
    split at hcon
    next e hrep =>
      simp only [LowerResult.crash.injEq] at hcon
      subst hcon
      rw [Replace_assert_iff] at hrep
      obtain ⟨blk', h1, h2⟩ := hrep
      have hble : b ≤ f.blocks.length :=
        Nat.le_of_lt (List.getElem?_eq_some_iff.1 hblk).1
      simp only [] at h1
      rw [getElem?_take_cons_one f.blocks b hble] at h1
      rw [← Option.some.inj h1] at h2
      simp only [] at h2
      exact h2 (by rw [freshArgs_length, List.length_map])
    next f2 st4 cnt hrep =>
    split at hcon
    next hmerge => exact absurd hcon (by decide)
    next mergeBlk2 hmerge =>
    split at hcon
    next => exact absurd hcon (by decide)
    next op2 hop2 =>
    split at hcon
    next e hcall =>
      simp only [LowerResult.crash.injEq] at hcon
      subst hcon
      rcases CallFn_error hcall with h | h <;> exact absurd h (by decide)
    next thenCall thenRes st6 hcall =>
    split at hcon
    next e hjump =>
      simp only [LowerResult.crash.injEq] at hcon
      subst hcon
      exact absurd (JumpToBlock_error hjump) (by decide)
    next thenJump st7 hjump =>
    split at hcon
    next e hcall2 =>
      simp only [LowerResult.crash.injEq] at hcon
      subst hcon
      rcases CallFn_error hcall2 with h | h <;> exact absurd h (by decide)
    next elseCall elseRes st9 hcall2 =>
    split at hcon
    next e hjump2 =>
      simp only [LowerResult.crash.injEq] at hcon
      subst hcon
      exact absurd (JumpToBlock_error hjump2) (by decide)
    next elseJump st10 hjump2 =>
    split at hcon
    next horig => exact absurd hcon (by decide)
    next origBlk2 horig => exact absurd hcon (by simp)
  next hk => exact absurd hcon (by decide)

theorem LowerWhileOp_no_assert (f : Func) (b k : Nat) (m : ModuleTable)
    (st : LowerState) (blk : Block) (op : Op) (cn bn : Nat)
    (bodySig : FuncSig)
    (hblk : f.blocks[b]? = some blk) (hop : blk.ops[k]? = some op)
    (hkind : op.kind = .whileOp cn bn) (hbs : findFn m bn = some bodySig)
    (hlen : op.results.length = bodySig.inputs.length) :
    LowerWhileOp f b k m st ≠ .crash .assertResultCount := by
  intro hcon
  unfold LowerWhileOp at hcon
  rw [hblk] at hcon
  simp only [] at hcon
  rw [hop] at hcon
  simp only [] at hcon
  rw [hkind] at hcon
  simp only [] at hcon
  split at hcon
  next hcf => exact absurd hcon (by decide)
  next condSig hcf =>
  split at hcon
  next hbf => exact absurd hcon (by decide)
  next bodySig0 hbf =>
  rw [hbs] at hbf
  have hbse := Option.some.inj hbf
  subst hbse
  split at hcon
  next e hjump =>
    simp only [LowerResult.crash.injEq] at hcon
    subst hcon
    exact absurd (JumpToBlock_error hjump) (by decide)
  next headJump st7 hjump =>
  split at hcon
  next e hcall =>
    simp only [LowerResult.crash.injEq] at hcon
    subst hcon
    rcases CallFn_error hcall with h | h <;> exact absurd h (by decide)
  next condCall condRes st8 hcall =>
  split at hcon
  next hl1 =>
    split at hcon
    next => exact absurd hcon (by decide)
    next r0 hr0 =>
    split at hcon
    next e hlcw =>
      simp only [LowerResult.crash.injEq] at hcon
      subst hcon
      exact absurd (LowerConditionWhile_error hlcw) (by decide)
    next optCond extractOps st9 hlcw =>
    split at hcon
    next e hprep =>
      simp only [LowerResult.crash.injEq] at hcon
      subst hcon
      exact absurd (adaptArgsGo_error hprep) (by decide)
    next brVals brCasts st10 hprep =>
    split at hcon
    next e hcallb =>
      simp only [LowerResult.crash.injEq] at hcon
      subst hcon
      rcases CallFn_error hcallb with h | h <;> exact absurd h (by decide)
    next bodyCall bodyRes st11 hcallb =>
    split at hcon
    next e hjumpb =>
      simp only [LowerResult.crash.injEq] at hcon
      subst hcon
      exact absurd (JumpToBlock_error hjumpb) (by decide)
    next bodyJump st12 hjumpb =>
    split at hcon
    next e hrep =>
      simp only [LowerResult.crash.injEq] at hcon
      subst hcon
      rw [Replace_assert_iff] at hrep
      obtain ⟨blk', h1, h2⟩ := hrep
      have hble : b ≤ f.blocks.length :=
        Nat.le_of_lt (List.getElem?_eq_some_iff.1 hblk).1
      simp only [] at h1
      rw [getElem?_take_cons_three f.blocks b hble] at h1
      rw [← Option.some.inj h1] at h2
      simp only [] at h2
      exact h2 (by rw [freshArgs_length]; exact hlen)
    next f2 st13 cnt hrep => exact absurd hcon (by simp)
  next hl1 => exact absurd hcon (by decide)

/-! ## Componentwise facts about zipped argument lists -/

theorem zip_snd_ty_eq {res margs : List Arg}
    (h : margs.map (fun a => a.ty) = res.map (fun r => r.ty)) :
    ∀ p ∈ res.zip margs, p.2.ty = p.1.ty := by
  induction res generalizing margs with
  | nil => intro p hp; exact absurd hp (by simp)
  | cons r rs ih =>
    intro p hp
    match margs with
    | [] => exact absurd hp (by simp)
    | mm :: ms =>
      simp only [List.map_cons, List.cons.injEq] at h
      rw [List.zip_cons_cons] at hp
      rcases List.mem_cons.1 hp with hp0 | hp1
      · subst hp0
        exact h.1
      · exact ih h.2 p hp1

theorem getElem?_take_cons_two {α : Type} (X : List α) (b : Nat)
    (hb : b ≤ X.length) (x0 x1 x2 : α) (rest : List α) :
    (X.take b ++ x0 :: x1 :: x2 :: rest)[b + 2]? = some x2 := by
  rw [getElem?_take_append X b 2 hb]
  simp

theorem getElem?_take_append_two_skip {α : Type} (X : List α) (b t : Nat)
    (hb : b ≤ X.length) (x0 x1 : α) (rest : List α) :
    (X.take b ++ x0 :: x1 :: rest)[b + (t + 2)]? = rest[t]? := by
  rw [getElem?_take_append X b (t + 2) hb]
  rw [show t + 2 = (t + 1) + 1 from by omega, List.getElem?_cons_succ]
  rw [List.getElem?_cons_succ]

theorem getElem?_take_append_four_skip {α : Type} (X : List α) (b t : Nat)
    (hb : b ≤ X.length) (x0 x1 x2 x3 : α) (rest : List α) :
    (X.take b ++ x0 :: x1 :: x2 :: x3 :: rest)[b + (t + 4)]? = rest[t]? := by
  rw [getElem?_take_append X b (t + 4) hb]
  rw [show t + 4 = (t + 3) + 1 from by omega, List.getElem?_cons_succ]
  rw [show t + 3 = (t + 2) + 1 from by omega, List.getElem?_cons_succ]
  rw [show t + 2 = (t + 1) + 1 from by omega, List.getElem?_cons_succ]
  rw [List.getElem?_cons_succ]

/-! ## Freshness: the builders only allocate new value ids -/

theorem adaptValue_nextVal_le (loc v : Nat) (t : MType) (st : LowerState) :
    st.nextVal ≤ (adaptValue loc v t st).2.2.nextVal := by
  unfold adaptValue
  by_cases hc : typeOf st v = some t
  · rw [if_pos hc]
  · rw [if_neg hc]
    exact Nat.le_succ _

theorem adaptArgsGo_nextVal_le {loc : Nat} {get : Nat → Option Nat} :
    ∀ {tys : List MType} {i : Nat} {st : LowerState} {vs : List Nat}
      {ops : List Op} {st' : LowerState},
      adaptArgsGo loc get i tys st = .ok (vs, ops, st') →
      st.nextVal ≤ st'.nextVal := by
  intro tys
  induction tys with
  | nil =>
    intro i st vs ops st' h
    simp only [adaptArgsGo, Except.ok.injEq, Prod.mk.injEq] at h
    rw [← h.2.2]
  | cons t ts ih =>
    intro i st vs ops st' h
    simp only [adaptArgsGo] at h
    match hg : get i with
    | none => rw [hg] at h; exact absurd h (by simp)
    | some v =>
      rw [hg] at h
      simp only [] at h
      match hrec : adaptArgsGo loc get (i + 1) ts
          (adaptValue loc v t st).2.2 with
      | .error e => rw [hrec] at h; exact absurd h (by simp)
      | .ok (vs₀, ops₀, st₀) =>
        rw [hrec] at h
        simp only [Except.ok.injEq, Prod.mk.injEq] at h
        rw [← h.2.2]
        have h1 := adaptValue_nextVal_le loc v t st
        have h2 := ih hrec
        omega

theorem adaptArgsGo_ok_vals {loc : Nat} {get : Nat → Option Nat} :
    ∀ {tys : List MType} {i : Nat} {st : LowerState} {vs : List Nat}
      {ops : List Op} {st' : LowerState},
      adaptArgsGo loc get i tys st = .ok (vs, ops, st') →
      ∀ v ∈ vs, (∃ j, get j = some v) ∨ st.nextVal ≤ v := by
  intro tys
  induction tys with
  | nil =>
    intro i st vs ops st' h v hv
    simp only [adaptArgsGo, Except.ok.injEq, Prod.mk.injEq] at h
    rw [← h.1] at hv
    exact absurd hv (by simp)
  | cons t ts ih =>
    intro i st vs ops st' h v hv
    simp only [adaptArgsGo] at h
    match hg : get i with
    | none => rw [hg] at h; exact absurd h (by simp)
    | some w =>
      rw [hg] at h
      simp only [] at h
      match hrec : adaptArgsGo loc get (i + 1) ts
          (adaptValue loc w t st).2.2 with
      | .error e => rw [hrec] at h; exact absurd h (by simp)
      | .ok (vs₀, ops₀, st₀) =>
        rw [hrec] at h
        simp only [Except.ok.injEq, Prod.mk.injEq] at h
        rw [← h.1] at hv
        rcases List.mem_cons.1 hv with hv0 | hv1
        · subst hv0
          unfold adaptValue
          by_cases hc : typeOf st w = some t
          · rw [if_pos hc]
            exact Or.inl ⟨i, hg⟩
          · rw [if_neg hc]
            exact Or.inr (Nat.le_refl _)
        · rcases ih hrec v hv1 with hj | hge
          · exact Or.inl hj
          · have := adaptValue_nextVal_le loc w t st
            exact Or.inr (Nat.le_trans this hge)

theorem CallFn_nextVal_le {loc : Nat} {get : Nat → Option Nat}
    {fn : Option FuncSig} {callee : Nat} {st : LowerState} {ops : List Op}
    {res : List Arg} {st' : LowerState}
    (h : CallFn loc get fn callee st = .ok (ops, res, st')) :
    st.nextVal ≤ st'.nextVal := by
  unfold CallFn at h
  match fn with
  | none => exact absurd h (by simp)
  | some sig =>
    simp only [] at h
    match hAd : adaptArgs loc get sig.inputs st with
    | .error e => rw [hAd] at h; exact absurd h (by simp)
    | .ok (vals, casts, st₁) =>
      rw [hAd] at h
      simp only [Except.ok.injEq, Prod.mk.injEq] at h
      rw [← h.2.2]
      have h1 : st.nextVal ≤ st₁.nextVal := adaptArgsGo_nextVal_le hAd
      have h2 := freshArgs_nextVal_le sig.results st₁
      omega

theorem JumpToBlock_nextVal_le {loc : Nat} {get : Nat → Option Nat}
    {blockArgs : List Arg} {dest : Nat} {st : LowerState} {ops : List Op}
    {st' : LowerState}
    (h : JumpToBlock loc get blockArgs dest st = .ok (ops, st')) :
    st.nextVal ≤ st'.nextVal := by
  unfold JumpToBlock at h
  match hP : PrepareValsForJump loc get blockArgs st with
  | .error e => rw [hP] at h; exact absurd h (by simp)
  | .ok (vals, casts, st₁) =>
    rw [hP] at h
    simp only [Except.ok.injEq, Prod.mk.injEq] at h
    rw [← h.2]
    exact adaptArgsGo_nextVal_le hP

theorem LowerConditionWhile_nextVal_le {loc v : Nat} {st : LowerState}
    {oc : Option Nat} {ops : List Op} {st' : LowerState}
    (h : LowerConditionWhile loc v st = .ok (oc, ops, st')) :
    st.nextVal ≤ st'.nextVal := by
  unfold LowerConditionWhile LowerCondition at h
  match ht : typeOf st v with
  | some (.tensor shape ek) =>
    rw [ht] at h
    simp only [] at h
    by_cases hc : shape = some ([] : List Nat) ∧ ek = .int 1
    · rw [if_pos hc] at h
      simp only [Except.ok.injEq, Prod.mk.injEq] at h
      rw [← h.2.2]
      exact Nat.le_succ _
    · rw [if_neg hc] at h
      simp only [Except.ok.injEq, Prod.mk.injEq] at h
      rw [← h.2.2]
      exact Nat.le_refl _
  | some (.scalar ek) =>
    rw [ht] at h
    simp only [] at h
    exact absurd h (by simp)
  | none =>
    rw [ht] at h
    simp only [] at h
    exact absurd h (by simp)

theorem LowerConditionWhile_ok_opt {loc v : Nat} {st : LowerState}
    {oc : Option Nat} {ops : List Op} {st' : LowerState}
    (h : LowerConditionWhile loc v st = .ok (oc, ops, st')) :
    oc = none ∨ ∃ x, oc = some x ∧ st.nextVal ≤ x := by
  unfold LowerConditionWhile LowerCondition at h
  match ht : typeOf st v with
  | some (.tensor shape ek) =>
    rw [ht] at h
    simp only [] at h
    by_cases hc : shape = some ([] : List Nat) ∧ ek = .int 1
    · rw [if_pos hc] at h
      simp only [Except.ok.injEq, Prod.mk.injEq] at h
      exact Or.inr ⟨(freshVal (.scalar ek) st).1, h.1.symm, Nat.le_refl _⟩
    · rw [if_neg hc] at h
      simp only [Except.ok.injEq, Prod.mk.injEq] at h
      exact Or.inl h.1.symm
  | some (.scalar ek) =>
    rw [ht] at h
    simp only [] at h
    exact absurd h (by simp)
  | none =>
    rw [ht] at h
    simp only [] at h
    exact absurd h (by simp)

/-! ## The claims -/

/-- C1: the spec says a WhileOp whose cond-callee result is not a rank-0
boolean tensor aborts lowering and makes the pass report failure.  The
code does not: `LowerWhileOp` never checks the null result of
`LowerCondition`, so on the module whose cond callee (14) returns a
rank-0 i32 tensor the lowering emits the diagnostic at the op's location
but still succeeds, builds a conditional branch with a null condition in
the cond block (block index 1), and the driver reports overall success
(`done`), not failure. -/
theorem claim_C1_while_unsupported_condition_ignored :
    isOkResult (LowerWhileOp exWhileBadFunc 0 0 exMod exSt) = true ∧
    (lowerOkState (LowerWhileOp exWhileBadFunc 0 0 exMod exSt)).diags =
      [(5, "only supports zero-D bool tensors now")] ∧
    ((lowerOkFunc (LowerWhileOp exWhileBadFunc 0 0 exMod exSt)).blocks[1]?).map
      (fun bb => bb.ops.getLast?) =
      some (some ⟨.condBr none 22 [] 20 [], [], [], 5⟩) ∧
    runOnFunction exMod exWhileBadFunc exSt =
      .done (lowerOkFunc (LowerWhileOp exWhileBadFunc 0 0 exMod exSt))
        (lowerOkState (LowerWhileOp exWhileBadFunc 0 0 exMod exSt)) := by
  refine ⟨by decide, by decide, by decide, by decide⟩

/-- C2: the spec requires a `CalleeNotFound` failure when a callee name
is absent from the module table; the code performs no such check and
dereferences the null `Function*` instead (modelled as the
`nullFunctionDeref` crash), for both the If (then-callee 99 absent) and
the While (cond-callee 99 absent) lowerings. -/
theorem claim_C2_missing_callee_not_reported :
    findFn exMod 99 = none ∧
    LowerIfOp exIfMissingFunc 0 0 exMod exSt = .crash .nullFunctionDeref ∧
    LowerWhileOp exWhileMissingFunc 0 0 exMod exSt =
      .crash .nullFunctionDeref := by
  refine ⟨by decide, by decide, by decide⟩

/-- C3: for a tensor-typed input value, `LowerCondition` succeeds and
returns the result of the created `ExtractElementOp` iff the type is a
ranked rank-0 tensor of `i1`; for any other shape or element kind it
returns no value and emits the unsupported-condition diagnostic at the
input location. -/
theorem claim_C3_lower_condition_spec (loc v : Nat) (st : LowerState)
    (shape : Option (List Nat)) (e : ElemKind)
    (hty : typeOf st v = some (.tensor shape e)) :
    ((shape = some ([] : List Nat) ∧ e = .int 1) →
      ∃ x st₁, LowerCondition loc v st =
        .ok ⟨.extractElement, [v], [⟨x, .scalar e⟩], loc⟩ x st₁) ∧
    (¬(shape = some ([] : List Nat) ∧ e = .int 1) →
      LowerCondition loc v st =
        .unsupported (addDiag loc "only supports zero-D bool tensors now" st)) ∧
    ((∃ ex x st₁, LowerCondition loc v st = .ok ex x st₁) ↔
      (shape = some ([] : List Nat) ∧ e = .int 1)) := by
  unfold LowerCondition
  rw [hty]
  simp only []
  refine ⟨?_, ?_, ?_, ?_⟩
  · intro hgood
    rw [if_pos hgood]
    exact ⟨(freshVal (.scalar e) st).1, (freshVal (.scalar e) st).2, rfl⟩
  · intro hbad
    rw [if_neg hbad]
  · intro ⟨ex, x, st₁, hok⟩
    by_cases hc : shape = some ([] : List Nat) ∧ e = .int 1
    · exact hc
    · rw [if_neg hc] at hok
      exact absurd hok (by simp)
  · intro hgood
    rw [if_pos hgood]
    exact ⟨_, _, _, rfl⟩

theorem claim_C3_lower_condition_spec_witness :
    (∃ x st₁, LowerCondition 7 1 exSt =
      .ok ⟨.extractElement, [1], [⟨x, .scalar (.int 1)⟩], 7⟩ x st₁) ∧
    LowerCondition 7 3 exStBad =
      .unsupported (addDiag 7 "only supports zero-D bool tensors now"
        exStBad) ∧
    LowerCondition 7 9 exStVec =
      .unsupported (addDiag 7 "only supports zero-D bool tensors now"
        exStVec) :=
  ⟨(claim_C3_lower_condition_spec 7 1 exSt (some []) (.int 1)
      (by decide)).1 ⟨rfl, rfl⟩,
   (claim_C3_lower_condition_spec 7 3 exStBad (some []) (.int 32)
      (by decide)).2.1 (by decide),
   (claim_C3_lower_condition_spec 7 9 exStVec (some [4]) (.int 1)
      (by decide)).2.1 (by decide)⟩

/-- C8: the ValueAdapter pattern returns the value itself and creates no
cast when the type already matches the destination, and creates exactly
one `TensorCastOp` to the destination type (returning its result) when
it differs; the same per-element behaviour holds for the instantiation
inside `ReplaceOpResultWithBlockArgs` (comparing the block argument's
declared type with the result's). -/
theorem claim_C8_value_adapter_casts (loc v : Nat) (t expected : MType)
    (st : LowerState) (hty : typeOf st v = some t) :
    (t = expected → adaptValue loc v expected st = (v, [], st)) ∧
    (t ≠ expected → ∃ c st₁, adaptValue loc v expected st =
        (c, [⟨.tensorCast, [v], [⟨c, expected⟩], loc⟩], st₁) ∧
        typeOf st₁ c = some expected) ∧
    (∀ (res arg : Arg) (f : Func) (bi : Nat), arg.ty = res.ty →
      replaceGo loc bi [(res, arg)] 0 f st =
        (replaceUses f res.id arg.id, st, 0)) ∧
    (∀ (res arg : Arg) (f : Func) (bi : Nat), arg.ty ≠ res.ty →
      replaceGo loc bi [(res, arg)] 0 f st =
        (replaceUses (insertOpAt f bi 0
            ⟨.tensorCast, [arg.id], [⟨(freshVal res.ty st).1, res.ty⟩], loc⟩)
          res.id (freshVal res.ty st).1, (freshVal res.ty st).2, 1)) := by
  refine ⟨?_, ?_, ?_, ?_⟩
  · intro ht
    subst ht
    unfold adaptValue
    rw [if_pos hty]
  · intro ht
    have hne : typeOf st v ≠ some expected := by
      rw [hty]
      intro hcon
      exact ht (Option.some.inj hcon)
    unfold adaptValue
    rw [if_neg hne]
    refine ⟨(freshVal expected st).1, (freshVal expected st).2, rfl, ?_⟩
    show typeOf (freshVal expected st).2 st.nextVal = some expected
    unfold typeOf freshVal
    simp [List.find?_cons]
  · intro res arg f bi ht
    simp only [replaceGo]
    rw [if_pos ht]
  · intro res arg f bi ht
    simp only [replaceGo]
    rw [if_neg ht]

theorem claim_C8_value_adapter_casts_witness :
    adaptValue 7 1 tBool exSt = (1, [], exSt) ∧
    (∃ c st₁, adaptValue 7 1 tI32 exSt =
      (c, [⟨.tensorCast, [1], [⟨c, tI32⟩], 7⟩], st₁) ∧
      typeOf st₁ c = some tI32) :=
  ⟨(claim_C8_value_adapter_casts 7 1 tBool tBool exSt (by decide)).1 rfl,
   (claim_C8_value_adapter_casts 7 1 tBool tI32 exSt (by decide)).2.1
     (by decide)⟩

/-- C9: when an IfOp's condition value is a tensor that is not rank-0
boolean, `LowerIfOp` fails before mutating anything: the result is the
failure return with the input function unchanged and the state changed
only by the diagnostic emitted at the op's location — no split, no new
blocks, calls or casts, and the IfOp still in place (the condition is
lowered before callee resolution and before the block split). -/
theorem claim_C9_if_condition_failure_atomic (f : Func) (b k : Nat)
    (m : ModuleTable) (st : LowerState) (blk : Block) (op : Op)
    (tn en cv : Nat) (shape : Option (List Nat)) (e : ElemKind)
    (hblk : f.blocks[b]? = some blk) (hop : blk.ops[k]? = some op)
    (hkind : op.kind = .ifOp tn en) (hcv : op.operands[0]? = some cv)
    (hty : typeOf st cv = some (.tensor shape e))
    (hbad : ¬(shape = some ([] : List Nat) ∧ e = .int 1)) :
    LowerIfOp f b k m st =
      .fail f (addDiag op.loc "only supports zero-D bool tensors now" st) := by
  have hlc : LowerCondition op.loc cv st =
      .unsupported (addDiag op.loc "only supports zero-D bool tensors now"
        st) := by
    unfold LowerCondition
    rw [hty]
    simp only []
    rw [if_neg hbad]
  unfold LowerIfOp
  simp only [hblk, hop, hkind, hcv, hlc]

theorem claim_C9_if_condition_failure_atomic_witness :
    LowerIfOp exIfBadFunc 0 0 exMod exStBad =
      .fail exIfBadFunc
        (addDiag 7 "only supports zero-D bool tensors now" exStBad) :=
  claim_C9_if_condition_failure_atomic exIfBadFunc 0 0 exMod exStBad
    ⟨0, [], [exIfBadCondOp, exRet]⟩ exIfBadCondOp 10 11 3 (some [])
    (.int 32) (by decide) (by decide) rfl (by decide) (by decide) (by decide)

/-- C6: for every successfully lowered IfOp, the original (pre-split)
block ends in a conditional branch whose condition is the value returned
by lowering the IfOp's condition, whose true target is the then block and
whose false target is the else block, each target receiving zero branch
operands; the lowering adds exactly three blocks and removes exactly one
structured op.  On the concrete IfOp with no data operands and no
results, the output is exactly four blocks: entry ending in the
conditional branch, then block (call plus jump), else block (call plus
jump), and merge block holding the rest, with the IfOp erased. -/
theorem claim_C6_if_lowering_cfg_shape :
    (∀ (f : Func) (b k : Nat) (m : ModuleTable) (st : LowerState)
      (f' : Func) (st' : LowerState), LowerIfOp f b k m st = .ok f' st' →
      ∃ blk op cond extractOp condVal st₁ origBlk thenBlk elseBlk mergeBlk,
        f.blocks[b]? = some blk ∧
        blk.ops[k]? = some op ∧
        op.operands[0]? = some cond ∧
        LowerCondition op.loc cond st = .ok extractOp condVal st₁ ∧
        f'.blocks[b]? = some origBlk ∧
        f'.blocks[b + 1]? = some thenBlk ∧
        f'.blocks[b + 2]? = some elseBlk ∧
        f'.blocks[b + 3]? = some mergeBlk ∧
        origBlk.ops.getLast? =
          some ⟨.condBr (some condVal) thenBlk.bid [] elseBlk.bid [],
            [], [], op.loc⟩ ∧
        f'.blocks.length = f.blocks.length + 3 ∧
        structuredCount f' + 1 = structuredCount f) ∧
    (isOkResult (LowerIfOp exIfFunc 0 0 exMod exSt) = true ∧
      (lowerOkFunc (LowerIfOp exIfFunc 0 0 exMod exSt)).blocks.map
          (fun bb => bb.ops.map (fun o => o.kind)) =
        [[.extractElement, .condBr (some 100) 21 [] 22 []],
         [.call 10, .br 20 []],
         [.call 11, .br 20 []],
         [.ret]] ∧
      (lowerOkFunc (LowerIfOp exIfFunc 0 0 exMod exSt)).blocks.map
          (fun bb => bb.bid) = [0, 21, 22, 20] ∧
      structuredCount (lowerOkFunc (LowerIfOp exIfFunc 0 0 exMod exSt)) =
        0) := by
  constructor
  · intro f b k m st f' st' h
    obtain ⟨blk, op, tn, en, cond, extractOp, condVal, st₁, margs, stm, f₂,
      st₄, cnt, mergeBlk₂, op₂, thenCall, thenRes, st₆, thenJump, st₇,
      elseCall, elseRes, st₉, elseJump, st₁₀, origBlk₂, hblk, hop, hkind,
      hcond, hlc, hfa, hrep, hmerge, hop2, hcall, hjump, hcall2, hjump2,
      horig, hf', hst'⟩ := LowerIfOp_ok_inv h
    have hfacts := LowerIfOp_ok_facts h
    have hble₂ : b ≤ f₂.blocks.length :=
      Nat.le_of_lt (List.getElem?_eq_some_iff.1 horig).1
    refine ⟨blk, op, cond, extractOp, condVal, st₁,
      { origBlk₂ with ops := origBlk₂.ops ++
          [⟨.condBr (some condVal) (freshBid st₄).1 [] (freshBid st₇).1 [],
            [], [], op.loc⟩] },
      ⟨(freshBid st₄).1, [], thenCall ++ thenJump⟩,
      ⟨(freshBid st₇).1, [], elseCall ++ elseJump⟩,
      { mergeBlk₂ with ops := mergeBlk₂.ops.take cnt ++
          mergeBlk₂.ops.drop (cnt + 1) },
      hblk, hop, hcond, hlc, ?_, ?_, ?_, ?_, ?_, hfacts.2.1, hfacts.1⟩
    · rw [hf']
      show (f₂.blocks.take b ++ _)[b + 0]? = _
      rw [getElem?_take_append f₂.blocks b 0 hble₂]
      simp
    · rw [hf']
      show (f₂.blocks.take b ++ _)[b + 1]? = _
      rw [getElem?_take_append f₂.blocks b 1 hble₂]
      simp
    · rw [hf']
      show (f₂.blocks.take b ++ _)[b + 2]? = _
      rw [getElem?_take_append f₂.blocks b 2 hble₂]
      simp
    · rw [hf']
      show (f₂.blocks.take b ++ _)[b + 3]? = _
      rw [getElem?_take_append f₂.blocks b 3 hble₂]
      simp
    · exact List.getLast?_concat _
  · refine ⟨by decide, by decide, by decide, by decide⟩

theorem claim_C6_if_lowering_cfg_shape_witness :
    ∃ blk op cond extractOp condVal st₁ origBlk thenBlk elseBlk mergeBlk,
      exIfFunc.blocks[0]? = some blk ∧
      blk.ops[0]? = some op ∧
      op.operands[0]? = some cond ∧
      LowerCondition op.loc cond exSt = .ok extractOp condVal st₁ ∧
      (lowerOkFunc (LowerIfOp exIfFunc 0 0 exMod exSt)).blocks[0]? =
        some origBlk ∧
      (lowerOkFunc (LowerIfOp exIfFunc 0 0 exMod exSt)).blocks[1]? =
        some thenBlk ∧
      (lowerOkFunc (LowerIfOp exIfFunc 0 0 exMod exSt)).blocks[2]? =
        some elseBlk ∧
      (lowerOkFunc (LowerIfOp exIfFunc 0 0 exMod exSt)).blocks[3]? =
        some mergeBlk ∧
      origBlk.ops.getLast? =
        some ⟨.condBr (some condVal) thenBlk.bid [] elseBlk.bid [],
          [], [], op.loc⟩ ∧
      (lowerOkFunc (LowerIfOp exIfFunc 0 0 exMod exSt)).blocks.length =
        exIfFunc.blocks.length + 3 ∧
      structuredCount (lowerOkFunc (LowerIfOp exIfFunc 0 0 exMod exSt)) + 1 =
        structuredCount exIfFunc :=
  claim_C6_if_lowering_cfg_shape.1 exIfFunc 0 0 exMod exSt
    (lowerOkFunc (LowerIfOp exIfFunc 0 0 exMod exSt))
    (lowerOkState (LowerIfOp exIfFunc 0 0 exMod exSt)) (by decide)

/-- C10: `ReplaceOpResultWithBlockArgs` fails its assert exactly when the
op's result count differs from the destination block's argument count,
and the assert never fires at either call site: `LowerIfOp` can never
crash with the assert (the merge block gets one fresh argument per
result by construction), and `LowerWhileOp` cannot crash with it
whenever the WhileOp's result count equals the body callee's parameter
count (the tail block's arguments are fresh ones for exactly the body
callee's parameter types). -/
theorem claim_C10_replace_assert_safe :
    (∀ (loc : Nat) (op : Op) (bi : Nat) (f : Func) (st : LowerState),
      ReplaceOpResultWithBlockArgs loc op bi f st =
          .error .assertResultCount ↔
        ∃ blk, f.blocks[bi]? = some blk ∧
          op.results.length ≠ blk.args.length) ∧
    (∀ (f : Func) (b k : Nat) (m : ModuleTable) (st : LowerState),
      LowerIfOp f b k m st ≠ .crash .assertResultCount) ∧
    (∀ (f : Func) (b k : Nat) (m : ModuleTable) (st : LowerState)
      (blk : Block) (op : Op) (cn bn : Nat) (bodySig : FuncSig),
      f.blocks[b]? = some blk → blk.ops[k]? = some op →
      op.kind = .whileOp cn bn → findFn m bn = some bodySig →
      op.results.length = bodySig.inputs.length →
      LowerWhileOp f b k m st ≠ .crash .assertResultCount) :=
  ⟨fun loc op bi f st => Replace_assert_iff loc op bi f st,
   LowerIfOp_no_assert,
   fun f b k m st blk op cn bn bodySig hblk hop hkind hbs hlen =>
     LowerWhileOp_no_assert f b k m st blk op cn bn bodySig hblk hop hkind
       hbs hlen⟩

theorem claim_C10_replace_assert_safe_witness :
    ReplaceOpResultWithBlockArgs 7 exIfResOp 0 exIfResFunc exStRes =
      .error .assertResultCount ∧
    LowerIfOp exIfFunc 0 0 exMod exSt ≠ .crash .assertResultCount ∧
    LowerWhileOp exWhileFunc 0 0 exMod exSt ≠ .crash .assertResultCount :=
  ⟨(claim_C10_replace_assert_safe.1 7 exIfResOp 0 exIfResFunc exStRes).2
     ⟨⟨0, [], [exIfResOp, exUseOp, exRet]⟩, by decide, by decide⟩,
   claim_C10_replace_assert_safe.2.1 exIfFunc 0 0 exMod exSt,
   claim_C10_replace_assert_safe.2.2 exWhileFunc 0 0 exMod exSt
     ⟨0, [], [exWhileOp, exRet]⟩ exWhileOp 12 13 ⟨[], []⟩
     (by decide) (by decide) rfl (by decide) rfl⟩

/-- C5: the driver run on the stated fuel budget never exhausts it (the
termination argument: each successful lowering removes exactly one
structured op and adds three blocks, each skip advances one block); a
`done` run leaves zero structured ops; each single lowering removes
exactly one structured op and adds exactly three blocks.  On the
concrete function with two independent IfOps and one WhileOp the driver
completes with zero structured ops in a ten-block CFG. -/
theorem claim_C5_driver_terminates_zero_structured :
    (∀ (m : ModuleTable) (f : Func) (st : LowerState),
      runOnFunction m f st ≠ .outOfFuel) ∧
    (∀ (m : ModuleTable) (f : Func) (st : LowerState) (f' : Func)
      (st' : LowerState),
      runOnFunction m f st = .done f' st' → structuredCount f' = 0) ∧
    (∀ (f : Func) (b k : Nat) (m : ModuleTable) (st : LowerState)
      (f' : Func) (st' : LowerState),
      LowerIfOp f b k m st = .ok f' st' →
      structuredCount f' + 1 = structuredCount f ∧
      f'.blocks.length = f.blocks.length + 3) ∧
    (∀ (f : Func) (b k : Nat) (m : ModuleTable) (st : LowerState)
      (f' : Func) (st' : LowerState),
      LowerWhileOp f b k m st = .ok f' st' →
      structuredCount f' + 1 = structuredCount f ∧
      f'.blocks.length = f.blocks.length + 3) ∧
    (runOnFunction exMod exDrvFunc exSt2 =
      .done (doneFuncOf (runOnFunction exMod exDrvFunc exSt2))
        (doneStateOf (runOnFunction exMod exDrvFunc exSt2)) ∧
      structuredCount exDrvFunc = 3 ∧
      structuredCount (doneFuncOf (runOnFunction exMod exDrvFunc exSt2)) =
        0 ∧
      (doneFuncOf (runOnFunction exMod exDrvFunc exSt2)).blocks.length =
        10) := by
  refine ⟨?_, ?_, ?_, ?_, by decide, by decide, by decide, by decide⟩
  · intro m f st hcon
    unfold runOnFunction at hcon
    exact runAux_no_outOfFuel m (driverFuel f) f 0 st
      (by simp only [driverFuel]; omega) hcon
  · intro m f st f' st' h
    unfold runOnFunction at h
    exact runAux_done_count m (driverFuel f) f 0 st f' st'
      (fun j hj => absurd hj (by omega)) h
  · intro f b k m st f' st' h
    exact ⟨(LowerIfOp_ok_facts h).1, (LowerIfOp_ok_facts h).2.1⟩
  · intro f b k m st f' st' h
    exact ⟨(LowerWhileOp_ok_facts h).1, (LowerWhileOp_ok_facts h).2.1⟩

theorem claim_C5_driver_terminates_zero_structured_witness :
    runOnFunction exMod exWhileBadFunc exSt ≠ .outOfFuel ∧
    structuredCount (doneFuncOf (runOnFunction exMod exDrvFunc exSt2)) = 0 ∧
    (structuredCount (lowerOkFunc (LowerIfOp exIfFunc 0 0 exMod exSt)) + 1 =
      structuredCount exIfFunc ∧
      (lowerOkFunc (LowerIfOp exIfFunc 0 0 exMod exSt)).blocks.length =
        exIfFunc.blocks.length + 3) ∧
    (structuredCount
        (lowerOkFunc (LowerWhileOp exWhileFunc 0 0 exMod exSt)) + 1 =
      structuredCount exWhileFunc ∧
      (lowerOkFunc (LowerWhileOp exWhileFunc 0 0 exMod exSt)).blocks.length =
        exWhileFunc.blocks.length + 3) :=
  ⟨claim_C5_driver_terminates_zero_structured.1 exMod exWhileBadFunc exSt,
   claim_C5_driver_terminates_zero_structured.2.1 exMod exDrvFunc exSt2
     (doneFuncOf (runOnFunction exMod exDrvFunc exSt2))
     (doneStateOf (runOnFunction exMod exDrvFunc exSt2)) (by decide),
   claim_C5_driver_terminates_zero_structured.2.2.1 exIfFunc 0 0 exMod exSt
     (lowerOkFunc (LowerIfOp exIfFunc 0 0 exMod exSt))
     (lowerOkState (LowerIfOp exIfFunc 0 0 exMod exSt)) (by decide),
   claim_C5_driver_terminates_zero_structured.2.2.2.1 exWhileFunc 0 0 exMod
     exSt (lowerOkFunc (LowerWhileOp exWhileFunc 0 0 exMod exSt))
     (lowerOkState (LowerWhileOp exWhileFunc 0 0 exMod exSt)) (by decide)⟩

/-- C4: after successfully lowering an IfOp whose result ids are
distinct already-defined values, the merge block (at index `b + 3`) has
exactly one argument per result with the corresponding result's type,
and all uses are rewritten by the simultaneous substitution sending
result i's id to merge argument i's id and fixing every other value: the
merge block's remaining ops, the blocks before the lowered one and the
blocks after the merge block (shifted by the three new blocks) are the
substituted originals.  The argument types equal the result types by
construction, so no adapting casts are needed. -/
theorem claim_C4_merge_block_args_and_uses (f : Func) (b k : Nat)
    (m : ModuleTable) (st : LowerState) (f' : Func) (st' : LowerState)
    (blk : Block) (op : Op)
    (hblk : f.blocks[b]? = some blk) (hop : blk.ops[k]? = some op)
    (h : LowerIfOp f b k m st = .ok f' st')
    (hwf : ∀ r ∈ op.results, r.id < st.nextVal)
    (hnd : (op.results.map (fun r => r.id)).Nodup) :
    ∃ mergeBlk σ,
      f'.blocks[b + 3]? = some mergeBlk ∧
      mergeBlk.args.length = op.results.length ∧
      mergeBlk.args.map (fun a => a.ty) = op.results.map (fun r => r.ty) ∧
      σ = lookupSubst ((op.results.map (fun r => r.id)).zip
        (mergeBlk.args.map (fun a => a.id))) ∧
      op.results.map (fun r => σ r.id) =
        mergeBlk.args.map (fun a => a.id) ∧
      (∀ v, (∀ r ∈ op.results, r.id ≠ v) → σ v = v) ∧
      mergeBlk.ops = (blk.ops.drop (k + 1)).map (substOp σ) ∧
      (∀ j, j < b → f'.blocks[j]? = (f.blocks[j]?).map (substBlock σ)) ∧
      (∀ j, b + 3 < j →
        f'.blocks[j]? = (f.blocks[j - 3]?).map (substBlock σ)) := by
  obtain ⟨blk₀, op₀, tn, en, cond, extractOp, condVal, st₁, margs, stm, f₂,
    st₄, cnt, mergeBlk₂, op₂, thenCall, thenRes, st₆, thenJump, st₇,
    elseCall, elseRes, st₉, elseJump, st₁₀, origBlk₂, hblk0, hop0, hkind,
    hcond, hlc, hfa, hrep, hmerge, hop2, hcall, hjump, hcall2, hjump2,
    horig, hf', hst'⟩ := LowerIfOp_ok_inv h
  rw [hblk] at hblk0
  have hbe := Option.some.inj hblk0
  subst hbe
  rw [hop] at hop0
  have hoe := Option.some.inj hop0
  subst hoe
  obtain ⟨shape, e, hty, hsh, hek, hxop, hxval, hst₁⟩ :=
    LowerCondition_ok_inv hlc
  have hm : (freshArgs (op.results.map (fun r => r.ty))
      (freshBid st₁).2).1 = margs := by rw [hfa]
  have hlenm : margs.length = op.results.length := by
    rw [← hm, freshArgs_length, List.length_map]
  have htym : margs.map (fun a => a.ty) =
      op.results.map (fun r => r.ty) := by
    rw [← hm, freshArgs_tys]
  have hnv : (freshBid st₁).2.nextVal = st.nextVal + 1 := by
    rw [hst₁]
    rfl
  have hge : ∀ a ∈ margs, st.nextVal + 1 ≤ a.id := by
    rw [← hm]
    intro a ha
    have := freshArgs_ids_ge (op.results.map (fun r => r.ty))
      (freshBid st₁).2 a ha
    omega
  have hble : b ≤ f.blocks.length :=
    Nat.le_of_lt (List.getElem?_eq_some_iff.1 hblk).1
  obtain ⟨blkR, hblkR, hlenR, hgo⟩ := Replace_ok_inv hrep
  have hf₁get : (⟨f.blocks.take b ++
      (⟨blk.bid, blk.args, blk.ops.take k ++ [extractOp]⟩ : Block) ::
      (⟨(freshBid st₁).1, margs, op :: blk.ops.drop (k + 1)⟩ : Block) ::
      f.blocks.drop (b + 1)⟩ : Func).blocks[b + 1]? =
      some (⟨(freshBid st₁).1, margs, op :: blk.ops.drop (k + 1)⟩ :
        Block) := by
    show (f.blocks.take b ++ _)[b + 1]? = _
    rw [getElem?_take_append f.blocks b 1 hble]
    simp
  have hblkR' : blkR =
      (⟨(freshBid st₁).1, margs, op :: blk.ops.drop (k + 1)⟩ : Block) := by
    rw [hblkR] at hf₁get
    exact Option.some.inj hf₁get
  subst hblkR'
  simp only [] at hgo
  have htys : ∀ p ∈ op.results.zip margs, p.2.ty = p.1.ty :=
    zip_snd_ty_eq htym
  have hnc := replaceGo_nocast op.loc (b + 1) (op.results.zip margs) 0
    (⟨f.blocks.take b ++
      (⟨blk.bid, blk.args, blk.ops.take k ++ [extractOp]⟩ : Block) ::
      (⟨(freshBid st₁).1, margs, op :: blk.ops.drop (k + 1)⟩ : Block) ::
      f.blocks.drop (b + 1)⟩ : Func) stm htys
  rw [hgo] at hnc
  simp only [Prod.mk.injEq] at hnc
  obtain ⟨hf₂, hst₄, hcnt⟩ := hnc
  subst hcnt
  have hsep : ∀ p ∈ (op.results.zip margs).map
      (Prod.map (fun r : Arg => r.id) (fun a : Arg => a.id)),
      ∀ q ∈ (op.results.zip margs).map
        (Prod.map (fun r : Arg => r.id) (fun a : Arg => a.id)),
      p.2 ≠ q.1 := by
    intro p hp q hq
    obtain ⟨pp, hpp, hpe⟩ := List.mem_map.1 hp
    obtain ⟨qq, hqq, hqe⟩ := List.mem_map.1 hq
    rcases pp with ⟨pa, pb⟩
    rcases qq with ⟨qa, qb⟩
    have hpb : pb ∈ margs := (List.of_mem_zip hpp).2
    have hqa : qa ∈ op.results := (List.of_mem_zip hqq).1
    have h1 := hge pb hpb
    have h2 := hwf qa hqa
    rw [← hpe, ← hqe]
    show pb.id ≠ qa.id
    omega
  have hfold := foldl_replaceUses_eq_substFunc
    ((op.results.zip margs).map
      (Prod.map (fun r : Arg => r.id) (fun a : Arg => a.id)))
    (⟨f.blocks.take b ++
      (⟨blk.bid, blk.args, blk.ops.take k ++ [extractOp]⟩ : Block) ::
      (⟨(freshBid st₁).1, margs, op :: blk.ops.drop (k + 1)⟩ : Block) ::
      f.blocks.drop (b + 1)⟩ : Func) hsep
  rw [List.foldl_map] at hfold
  simp only [Prod.map_fst, Prod.map_snd] at hfold
  have hzipmap : (op.results.map (fun r => r.id)).zip
      (margs.map (fun a => a.id)) =
      (op.results.zip margs).map
        (Prod.map (fun r : Arg => r.id) (fun a : Arg => a.id)) :=
    List.zip_map _ _ _ _
  rw [← hzipmap] at hfold
  rw [hfold] at hf₂
  rw [hf₂] at hmerge
  rw [substFunc_blocks, List.getElem?_map] at hmerge
  rw [hf₁get] at hmerge
  simp only [Option.map_some'] at hmerge
  have hM := Option.some.inj hmerge
  have hargs2 : mergeBlk₂.args = margs := by
    rw [← hM]
    rfl
  have hops2 : mergeBlk₂.ops = (op :: blk.ops.drop (k + 1)).map
      (substOp (lookupSubst ((op.results.map (fun r => r.id)).zip
        (margs.map (fun a => a.id))))) := by
    rw [← hM]
    rfl
  have hble₂ : b ≤ f₂.blocks.length :=
    Nat.le_of_lt (List.getElem?_eq_some_iff.1 horig).1
  refine ⟨{ mergeBlk₂ with ops := (mergeBlk₂.ops.take 0 ++
      mergeBlk₂.ops.drop (0 + 1)) },
    lookupSubst ((op.results.map (fun r => r.id)).zip
      (margs.map (fun a => a.id))),
    ?_, ?_, ?_, ?_, ?_, ?_, ?_, ?_, ?_⟩
  · rw [hf']
    show (f₂.blocks.take b ++ _)[b + 3]? = _
    rw [getElem?_take_append f₂.blocks b 3 hble₂]
    simp
  · show mergeBlk₂.args.length = op.results.length
    rw [hargs2]
    exact hlenm
  · show mergeBlk₂.args.map (fun a => a.ty) =
      op.results.map (fun r => r.ty)
    rw [hargs2]
    exact htym
  · show _ = lookupSubst ((op.results.map (fun r => r.id)).zip
      (mergeBlk₂.args.map (fun a => a.id)))
    rw [hargs2]
  · show op.results.map _ = mergeBlk₂.args.map (fun a => a.id)
    rw [hargs2]
    apply List.ext_get
    · rw [List.length_map, List.length_map, hlenm]
    · intro n h₁ h₂
      simp only [List.get_eq_getElem, List.getElem_map]
      have hn1 : n < (op.results.map (fun r => r.id)).length := by
        simp only [List.length_map] at h₁ ⊢
        exact h₁
      have hn2 : n < (margs.map (fun a => a.id)).length := by
        simp only [List.length_map] at h₂ ⊢
        exact h₂
      have := lookupSubst_zip (op.results.map (fun r => r.id))
        (margs.map (fun a => a.id)) hnd n hn1 hn2
      simp only [List.get_eq_getElem, List.getElem_map] at this
      exact this
  · intro v hv
    apply lookupSubst_not_key
    intro q hq
    rcases q with ⟨q1, q2⟩
    have hq1 : q1 ∈ op.results.map (fun r => r.id) :=
      (List.of_mem_zip hq).1
    obtain ⟨r, hr, hre⟩ := List.mem_map.1 hq1
    show q1 ≠ v
    rw [← hre]
    exact hv r hr
  · show mergeBlk₂.ops.take 0 ++ mergeBlk₂.ops.drop (0 + 1) = _
    rw [hops2]
    simp
  · intro j hj
    rw [hf']
    show (f₂.blocks.take b ++ _)[j]? = _
    rw [getElem?_take_append_lt f₂.blocks b j hble₂ hj]
    rw [hf₂, substFunc_blocks, List.getElem?_map]
    congr 1
    show (f.blocks.take b ++ _)[j]? = _
    exact getElem?_take_append_lt f.blocks b j hble hj _
  · intro j hj
    obtain ⟨t, ht⟩ : ∃ t, j = b + (t + 4) := ⟨j - b - 4, by omega⟩
    subst ht
    rw [hf']
    show (f₂.blocks.take b ++ _)[b + (t + 4)]? = _
    rw [getElem?_take_append_four_skip f₂.blocks b t hble₂]
    rw [List.getElem?_drop]
    rw [hf₂, substFunc_blocks, List.getElem?_map]
    congr 1
    rw [show b + 2 + t = b + (t + 2) from by omega]
    show (f.blocks.take b ++ _)[b + (t + 2)]? = _
    rw [getElem?_take_append_two_skip f.blocks b t hble]
    rw [List.getElem?_drop]
    rw [show b + (t + 4) - 3 = b + 1 + t from by omega]

theorem claim_C4_merge_block_args_and_uses_witness :
    ∃ mergeBlk σ,
      (lowerOkFunc (LowerIfOp exIfResFunc 0 0 exMod
        exStRes)).blocks[0 + 3]? = some mergeBlk ∧
      mergeBlk.args.length = exIfResOp.results.length ∧
      mergeBlk.args.map (fun a => a.ty) =
        exIfResOp.results.map (fun r => r.ty) ∧
      σ = lookupSubst ((exIfResOp.results.map (fun r => r.id)).zip
        (mergeBlk.args.map (fun a => a.id))) ∧
      exIfResOp.results.map (fun r => σ r.id) =
        mergeBlk.args.map (fun a => a.id) ∧
      (∀ v, (∀ r ∈ exIfResOp.results, r.id ≠ v) → σ v = v) ∧
      mergeBlk.ops = ((⟨0, [], [exIfResOp, exUseOp, exRet]⟩ :
        Block).ops.drop (0 + 1)).map (substOp σ) ∧
      (∀ j, j < 0 →
        (lowerOkFunc (LowerIfOp exIfResFunc 0 0 exMod
          exStRes)).blocks[j]? =
          (exIfResFunc.blocks[j]?).map (substBlock σ)) ∧
      (∀ j, 0 + 3 < j →
        (lowerOkFunc (LowerIfOp exIfResFunc 0 0 exMod
          exStRes)).blocks[j]? =
          (exIfResFunc.blocks[j - 3]?).map (substBlock σ)) :=
  claim_C4_merge_block_args_and_uses exIfResFunc 0 0 exMod exStRes
    (lowerOkFunc (LowerIfOp exIfResFunc 0 0 exMod exStRes))
    (lowerOkState (LowerIfOp exIfResFunc 0 0 exMod exStRes))
    ⟨0, [], [exIfResOp, exUseOp, exRet]⟩ exIfResOp
    (by decide) (by decide) (by decide) (by decide) (by decide)

/-- C7: for every successfully lowered WhileOp (whose result ids are
already-defined values), the cond block's argument types are exactly the
cond callee's parameter types and the body and tail blocks' argument
types are exactly the body callee's parameter types; the cond block ends
in a conditional branch whose true target is the body block and whose
false target is the tail block, both receiving the same operand list
`brVals`, which is pinned as the ValueAdapter (`PrepareValsForJump`)
output adapting the cond block's own arguments to the body block's
argument types; every intermediate state is pinned by the builder-call
chain starting from the input state, so nothing in the statement is a
free choice. -/
theorem claim_C7_while_cond_branch_shape (f : Func) (b k : Nat)
    (m : ModuleTable) (st : LowerState) (f' : Func) (st' : LowerState)
    (blk : Block) (op : Op)
    (hblk : f.blocks[b]? = some blk) (hop : blk.ops[k]? = some op)
    (hwf : ∀ r ∈ op.results, r.id < st.nextVal)
    (h : LowerWhileOp f b k m st = .ok f' st') :
    ∃ (condName bodyName : Nat) (condSig bodySig : FuncSig)
      (condBlk bodyBlk tailBlk : Block) (cargs bargs targs : List Arg)
      (stca stba stta : LowerState) (headJump : List Op)
      (st₇ : LowerState) (condCall : List Op) (condRes : List Arg)
      (st₈ : LowerState) (r0 : Arg) (optCond : Option Nat)
      (extractOps : List Op) (st₉ : LowerState) (brVals : List Nat)
      (brCasts : List Op) (st₁₀ : LowerState),
      op.kind = .whileOp condName bodyName ∧
      findFn m condName = some condSig ∧
      findFn m bodyName = some bodySig ∧
      freshArgs condSig.inputs (freshBid (freshBid (freshBid st).2).2).2 =
        (cargs, stca) ∧
      freshArgs bodySig.inputs stca = (bargs, stba) ∧
      freshArgs bodySig.inputs stba = (targs, stta) ∧
      JumpToBlock op.loc (fun i => op.operands[i]?) cargs
        (freshBid (freshBid st).2).1 stta = .ok (headJump, st₇) ∧
      CallFn op.loc (fun i => (cargs[i]?).map (fun a => a.id))
        (some condSig) condName st₇ = .ok (condCall, condRes, st₈) ∧
      condRes.length = 1 ∧
      condRes[0]? = some r0 ∧
      LowerConditionWhile op.loc r0.id st₈ =
        .ok (optCond, extractOps, st₉) ∧
      PrepareValsForJump op.loc (fun i => (cargs[i]?).map (fun a => a.id))
        bargs st₉ = .ok (brVals, brCasts, st₁₀) ∧
      f'.blocks[b + 1]? = some condBlk ∧
      f'.blocks[b + 2]? = some bodyBlk ∧
      f'.blocks[b + 3]? = some tailBlk ∧
      condBlk.args = cargs ∧
      bodyBlk.args = bargs ∧
      tailBlk.args = targs ∧
      condBlk.args.map (fun a => a.ty) = condSig.inputs ∧
      bodyBlk.args.map (fun a => a.ty) = bodySig.inputs ∧
      tailBlk.args.map (fun a => a.ty) = bodySig.inputs ∧
      condBlk.ops.getLast? = some ⟨.condBr optCond bodyBlk.bid brVals
        tailBlk.bid brVals, [], [], op.loc⟩ := by
  obtain ⟨blk₀, op₀, condName, bodyName, condSig, bodySig, cargs, stca,
    bargs, stba, targs, stta, headJump, st₇, condCall, condRes, st₈, r0,
    optCond, extractOps, st₉, brVals, brCasts, st₁₀, bodyCall, bodyRes,
    st₁₁, bodyJump, st₁₂, f₂, st₁₃, cnt, hblk0, hop0, hkind, hcond, hbody,
    hca, hba, hta, hjump, hcall, hlen1, hr0, hlcw, hprep, hcallb, hjumpb,
    hrep, hf', hst'⟩ := LowerWhileOp_ok_inv h
  rw [hblk] at hblk0
  have hbe := Option.some.inj hblk0
  subst hbe
  rw [hop] at hop0
  have hoe := Option.some.inj hop0
  subst hoe
  have hble : b ≤ f.blocks.length :=
    Nat.le_of_lt (List.getElem?_eq_some_iff.1 hblk).1
  have hm1 : (freshArgs condSig.inputs
      (freshBid (freshBid (freshBid st).2).2).2).1 = cargs := by rw [hca]
  have hct : cargs.map (fun a => a.ty) = condSig.inputs := by
    rw [← hm1, freshArgs_tys]
  have hm2 : (freshArgs bodySig.inputs stca).1 = bargs := by rw [hba]
  have hbt : bargs.map (fun a => a.ty) = bodySig.inputs := by
    rw [← hm2, freshArgs_tys]
  have hm3 : (freshArgs bodySig.inputs stba).1 = targs := by rw [hta]
  have htt : targs.map (fun a => a.ty) = bodySig.inputs := by
    rw [← hm3, freshArgs_tys]
  obtain ⟨blkR, hblkR, hlenR, hgo⟩ := Replace_ok_inv hrep
  obtain ⟨blk', σ, hs1, hs2, hs3, hs4, hs5, hs6, hs7, hs8⟩ :=
    replaceGo_shape op.loc (b + 3) (op.results.zip blkR.args) 0 _ st₁₂ _
      hblkR (Nat.zero_le _)
  rw [hgo] at hs1
  simp only [] at hs1
  have h21 := hs8 (b + 1) (by omega)
  rw [hgo] at h21
  simp only [] at h21
  rw [getElem?_take_cons_one f.blocks b hble] at h21
  simp only [Option.map_some'] at h21
  have h22 := hs8 (b + 2) (by omega)
  rw [hgo] at h22
  simp only [] at h22
  rw [getElem?_take_cons_two f.blocks b hble] at h22
  simp only [Option.map_some'] at h22
  simp only [] at hblkR
  rw [getElem?_take_cons_three f.blocks b hble] at hblkR
  have hbk := Option.some.inj hblkR
  subst hbk
  have he1 : f'.blocks[b + 1]? = some (substBlock σ
      (⟨(freshBid (freshBid st).2).1, cargs,
        condCall ++ extractOps ++ brCasts ++
          [⟨.condBr optCond (freshBid (freshBid (freshBid st).2).2).1
            brVals (freshBid st).1 brVals, [], [], op.loc⟩]⟩ : Block)) := by
    rw [hf']
    show (modifyBlock f₂ (b + 3) (fun bb =>
      { bb with ops := bb.ops.take cnt ++ bb.ops.drop (cnt + 1) })).blocks[b
        + 1]? = _
    rw [modifyBlock_getElem_ne f₂ (b + 3) _ (b + 1) (by omega)]
    exact h21
  have he2 : f'.blocks[b + 2]? = some (substBlock σ
      (⟨(freshBid (freshBid (freshBid st).2).2).1, bargs,
        bodyCall ++ bodyJump⟩ : Block)) := by
    rw [hf']
    show (modifyBlock f₂ (b + 3) (fun bb =>
      { bb with ops := bb.ops.take cnt ++ bb.ops.drop (cnt + 1) })).blocks[b
        + 2]? = _
    rw [modifyBlock_getElem_ne f₂ (b + 3) _ (b + 2) (by omega)]
    exact h22
  have he3 : f'.blocks[b + 3]? = some ({ blk' with ops :=
      (blk'.ops.take cnt ++ blk'.ops.drop (cnt + 1)) } : Block) := by
    rw [hf']
    show (modifyBlock f₂ (b + 3) (fun bb =>
      { bb with ops := bb.ops.take cnt ++ bb.ops.drop (cnt + 1) })).blocks[b
        + 3]? = _
    exact modifyBlock_getElem_self _ hs1
  have hσfix : ∀ v, st.nextVal ≤ v → σ v = v := by
    intro v hv
    apply hs7
    intro p hp
    rcases p with ⟨p1, p2⟩
    have hp1 : p1 ∈ op.results := (List.of_mem_zip hp).1
    have := hwf p1 hp1
    show p1.id ≠ v
    omega
  have hsc : (freshArgs condSig.inputs
      (freshBid (freshBid (freshBid st).2).2).2).2 = stca := by rw [hca]
  have hsb : (freshArgs bodySig.inputs stca).2 = stba := by rw [hba]
  have hstt : (freshArgs bodySig.inputs stba).2 = stta := by rw [hta]
  have hn1 : st.nextVal ≤ stca.nextVal := by
    rw [← hsc]
    exact freshArgs_nextVal_le condSig.inputs
      (freshBid (freshBid (freshBid st).2).2).2
  have hn2 : stca.nextVal ≤ stba.nextVal := by
    rw [← hsb]
    exact freshArgs_nextVal_le bodySig.inputs stca
  have hn3 : stba.nextVal ≤ stta.nextVal := by
    rw [← hstt]
    exact freshArgs_nextVal_le bodySig.inputs stba
  have hn4 : stta.nextVal ≤ st₇.nextVal := JumpToBlock_nextVal_le hjump
  have hn5 : st₇.nextVal ≤ st₈.nextVal := CallFn_nextVal_le hcall
  have hn6 : st₈.nextVal ≤ st₉.nextVal := LowerConditionWhile_nextVal_le hlcw
  have hcge : ∀ a ∈ cargs, st.nextVal ≤ a.id := by
    rw [← hm1]
    exact freshArgs_ids_ge condSig.inputs
      (freshBid (freshBid (freshBid st).2).2).2
  have hbrge : ∀ v ∈ brVals, st.nextVal ≤ v := by
    intro v hv
    rcases adaptArgsGo_ok_vals hprep v hv with ⟨j, hj⟩ | hge
    · match hc : cargs[j]? with
      | none => rw [hc] at hj; exact absurd hj (by simp)
      | some a =>
        rw [hc] at hj
        simp only [Option.map_some', Option.some.injEq] at hj
        have ha : a ∈ cargs := List.getElem?_mem hc
        have := hcge a ha
        omega
    · omega
  have hbrv : List.map σ brVals = brVals := by
    rw [List.map_congr_left (fun v hv => hσfix v (hbrge v hv))]
    exact List.map_id _
  have hoc : Option.map σ optCond = optCond := by
    rcases LowerConditionWhile_ok_opt hlcw with hnone | ⟨x, hx, hxge⟩
    · rw [hnone]
      rfl
    · rw [hx]
      simp only [Option.map_some']
      rw [hσfix x (by omega)]
  refine ⟨condName, bodyName, condSig, bodySig,
    substBlock σ (⟨(freshBid (freshBid st).2).1, cargs,
      condCall ++ extractOps ++ brCasts ++
        [⟨.condBr optCond (freshBid (freshBid (freshBid st).2).2).1
          brVals (freshBid st).1 brVals, [], [], op.loc⟩]⟩ : Block),
    substBlock σ (⟨(freshBid (freshBid (freshBid st).2).2).1, bargs,
      bodyCall ++ bodyJump⟩ : Block),
    ({ blk' with ops :=
      (blk'.ops.take cnt ++ blk'.ops.drop (cnt + 1)) } : Block),
    cargs, bargs, targs, stca, stba, stta, headJump, st₇, condCall,
    condRes, st₈, r0, optCond, extractOps, st₉, brVals, brCasts, st₁₀,
    hkind, hcond, hbody, hca, hba, hta, hjump, hcall, hlen1, hr0, hlcw,
    hprep, he1, he2, he3, ?_, ?_, ?_, ?_, ?_, ?_, ?_⟩
  · rfl
  · rfl
  · show blk'.args = targs
    rw [hs3]
  · show cargs.map (fun a => a.ty) = condSig.inputs
    exact hct
  · show bargs.map (fun a => a.ty) = bodySig.inputs
    exact hbt
  · show blk'.args.map (fun a => a.ty) = bodySig.inputs
    rw [hs3]
    show targs.map (fun a => a.ty) = bodySig.inputs
    exact htt
  · show (List.map (substOp σ) (condCall ++ extractOps ++ brCasts ++
      [⟨.condBr optCond (freshBid (freshBid (freshBid st).2).2).1
        brVals (freshBid st).1 brVals, [], [], op.loc⟩])).getLast? = _
    rw [List.map_append]
    rw [show List.map (substOp σ)
      [(⟨.condBr optCond (freshBid (freshBid (freshBid st).2).2).1
        brVals (freshBid st).1 brVals, [], [], op.loc⟩ : Op)] =
      [substOp σ ⟨.condBr optCond
        (freshBid (freshBid (freshBid st).2).2).1
        brVals (freshBid st).1 brVals, [], [], op.loc⟩] from rfl]
    rw [List.getLast?_concat]
    have hbid : ({ blk' with ops :=
        (blk'.ops.take cnt ++ blk'.ops.drop (cnt + 1)) } : Block).bid =
        (freshBid st).1 := by
      show blk'.bid = (freshBid st).1
      rw [hs2]
    rw [hbid]
    show some (⟨.condBr (Option.map σ optCond)
      (freshBid (freshBid (freshBid st).2).2).1 (List.map σ brVals)
      (freshBid st).1 (List.map σ brVals), [], [], op.loc⟩ : Op) =
      some (⟨.condBr optCond (freshBid (freshBid (freshBid st).2).2).1
        brVals (freshBid st).1 brVals, [], [], op.loc⟩ : Op)
    rw [hoc, hbrv]

theorem claim_C7_while_cond_branch_shape_witness :
    ∃ (condName bodyName : Nat) (condSig bodySig : FuncSig)
      (condBlk bodyBlk tailBlk : Block) (cargs bargs targs : List Arg)
      (stca stba stta : LowerState) (headJump : List Op)
      (st₇ : LowerState) (condCall : List Op) (condRes : List Arg)
      (st₈ : LowerState) (r0 : Arg) (optCond : Option Nat)
      (extractOps : List Op) (st₉ : LowerState) (brVals : List Nat)
      (brCasts : List Op) (st₁₀ : LowerState),
      exWhileOp.kind = .whileOp condName bodyName ∧
      findFn exMod condName = some condSig ∧
      findFn exMod bodyName = some bodySig ∧
      freshArgs condSig.inputs
        (freshBid (freshBid (freshBid exSt).2).2).2 = (cargs, stca) ∧
      freshArgs bodySig.inputs stca = (bargs, stba) ∧
      freshArgs bodySig.inputs stba = (targs, stta) ∧
      JumpToBlock exWhileOp.loc (fun i => exWhileOp.operands[i]?) cargs
        (freshBid (freshBid exSt).2).1 stta = .ok (headJump, st₇) ∧
      CallFn exWhileOp.loc (fun i => (cargs[i]?).map (fun a => a.id))
        (some condSig) condName st₇ = .ok (condCall, condRes, st₈) ∧
      condRes.length = 1 ∧
      condRes[0]? = some r0 ∧
      LowerConditionWhile exWhileOp.loc r0.id st₈ =
        .ok (optCond, extractOps, st₉) ∧
      PrepareValsForJump exWhileOp.loc
        (fun i => (cargs[i]?).map (fun a => a.id)) bargs st₉ =
        .ok (brVals, brCasts, st₁₀) ∧
      (lowerOkFunc (LowerWhileOp exWhileFunc 0 0 exMod
        exSt)).blocks[0 + 1]? = some condBlk ∧
      (lowerOkFunc (LowerWhileOp exWhileFunc 0 0 exMod
        exSt)).blocks[0 + 2]? = some bodyBlk ∧
      (lowerOkFunc (LowerWhileOp exWhileFunc 0 0 exMod
        exSt)).blocks[0 + 3]? = some tailBlk ∧
      condBlk.args = cargs ∧
      bodyBlk.args = bargs ∧
      tailBlk.args = targs ∧
      condBlk.args.map (fun a => a.ty) = condSig.inputs ∧
      bodyBlk.args.map (fun a => a.ty) = bodySig.inputs ∧
      tailBlk.args.map (fun a => a.ty) = bodySig.inputs ∧
      condBlk.ops.getLast? = some ⟨.condBr optCond bodyBlk.bid brVals
        tailBlk.bid brVals, [], [], exWhileOp.loc⟩ :=
  claim_C7_while_cond_branch_shape exWhileFunc 0 0 exMod exSt
    (lowerOkFunc (LowerWhileOp exWhileFunc 0 0 exMod exSt))
    (lowerOkState (LowerWhileOp exWhileFunc 0 0 exMod exSt))
    ⟨0, [], [exWhileOp, exRet]⟩ exWhileOp
    (by decide) (by decide) (by decide) (by decide)

end TFCFG
